import Mathlib

/-!
Verification of the object-store-server repository (versioned storage engine
and lifecycle-rule engine) against its natural-language specification.

The Rust source is shallowly embedded: `HashMap` is modelled by association
lists with first-match lookup and replace-or-append insertion, `SystemTime`
and `DateTime<Utc>` by `Nat` seconds since the epoch, byte buffers by
`List Nat`, and fallible operations by `Except`/`Option`.  Each definition
carries the path and name of the source item it embeds.
-/

namespace ObjectStoreServer

deriving instance DecidableEq for Except

/-! ## Association-list maps (model of `std::collections::HashMap`) -/

/-- First-match lookup, the model of `HashMap::get`. -/
def lookupS {κ α : Type} [DecidableEq κ] : List (κ × α) → κ → Option α
  | [], _ => none
  | (a, b) :: t, k => if a = k then some b else lookupS t k

/-- Replace-or-append insertion, the model of `HashMap::insert`. -/
def insertS {κ α : Type} [DecidableEq κ] : List (κ × α) → κ → α → List (κ × α)
  | [], k, v => [(k, v)]
  | (a, b) :: t, k, v => if a = k then (k, v) :: t else (a, b) :: insertS t k v

/-- Removal of a key, the model of `HashMap::remove`. -/
def eraseS {κ α : Type} [DecidableEq κ] (l : List (κ × α)) (k : κ) : List (κ × α) :=
  l.filter (fun p => p.1 ≠ k)

/-- The keys of the map are pairwise distinct. -/
def NodupKeys {κ α : Type} (l : List (κ × α)) : Prop :=
  l.Pairwise (fun p q => p.1 ≠ q.1)

instance nodupKeysDecidable {κ α : Type} [DecidableEq κ] (l : List (κ × α)) :
    Decidable (NodupKeys l) := by
  unfold NodupKeys
  infer_instance

/-- Rust `str::starts_with`, over the character list. -/
def strStartsWith (s pre : String) : Bool :=
  pre.data.isPrefixOf s.data

/-- `pat` occurs as a contiguous run inside the character list. -/
def listInfix (pat : List Char) : List Char → Bool
  | [] => pat.isEmpty
  | x :: t => pat.isPrefixOf (x :: t) || listInfix pat t

/-- Rust `str::contains` for a literal pattern. -/
def strContains (s pat : String) : Bool :=
  listInfix pat.data s.data

/-- Rust `str::split(sep)` over the character list; always non-empty. -/
def splitOnChar (sep : Char) : List Char → List (List Char)
  | [] => [[]]
  | x :: t =>
    let r := splitOnChar sep t
    if x = sep then [] :: r else (x :: r.headD []) :: r.tail

/-- The numeric value of a list of ASCII digits. -/
def digitsToNat (l : List Char) : Nat :=
  l.foldl (fun n c => n * 10 + (c.toNat - 48)) 0

/-! ## Filter (src/domain/models/filter.rs)

The `prefix` field is renamed `prefix_opt` because `prefix` is a reserved
word in Lean; the tag `HashMap` becomes an association list. -/

structure Filter where
  prefix_opt : Option String := none
  tags : List (String × String) := []
  object_size_greater_than : Option Nat := none
  object_size_less_than : Option Nat := none
deriving DecidableEq

namespace Filter

/-- `Filter::matches`.  The source early-returns `false` on the first failing
check; each conjunct below is one check, in source order.  The source guards
the tag loop with `!self.tags.is_empty()`, which is the identity on the
all-tags conjunct.  (`matches` is a Lean keyword, hence the `B` suffix.) -/
def matchesB (f : Filter) (key : String) (object_tags : List (String × String))
    (object_size : Nat) : Bool :=
  (match f.prefix_opt with
   | some p => strStartsWith key p
   | none => true)
  && f.tags.all (fun kv => lookupS object_tags kv.1 == some kv.2)
  && (match f.object_size_greater_than with
      | some min_size => decide (min_size < object_size)
      | none => true)
  && (match f.object_size_less_than with
      | some max_size => decide (object_size < max_size)
      | none => true)

/-- `Filter::is_empty`. -/
def is_empty (f : Filter) : Bool :=
  f.prefix_opt.isNone && f.tags.isEmpty
    && f.object_size_greater_than.isNone && f.object_size_less_than.isNone

end Filter

/-! ## Lifecycle rules and configuration (src/domain/models/lifecycle.rs) -/

inductive RuleStatus where
  | Enabled
  | Disabled
deriving DecidableEq

inductive StorageClass where
  | Standard
  | InfrequentAccess
  | Glacier
  | DeepArchive
  | Custom (s : String)
deriving DecidableEq

/-- `StorageClass::as_str`. -/
def StorageClass.as_str : StorageClass → String
  | .Standard => "STANDARD"
  | .InfrequentAccess => "STANDARD_IA"
  | .Glacier => "GLACIER"
  | .DeepArchive => "DEEP_ARCHIVE"
  | .Custom s => s

/-- `LifecycleRule`; `DateTime<Utc>` fields are modelled as `Nat` seconds
since the epoch.  Defaults mirror `#[derive(Default)]`. -/
structure LifecycleRule where
  id : String := ""
  status : RuleStatus := .Disabled
  filter : Filter := {}
  expiration_days : Option Nat := none
  expiration_date : Option Nat := none
  expiration_expired_object_delete_marker : Option Bool := none
  expiration_expired_object_all_versions : Option Bool := none
  del_marker_expiration_days : Option Nat := none
  all_versions_expiration_days : Option Nat := none
  all_versions_expiration_delete_marker : Option Bool := none
  transition_days : Option Nat := none
  transition_date : Option Nat := none
  transition_storage_class : Option StorageClass := none
  noncurrent_version_expiration_noncurrent_days : Option Nat := none
  noncurrent_version_expiration_newer_versions : Option Nat := none
  noncurrent_version_transition_noncurrent_days : Option Nat := none
  noncurrent_version_transition_storage_class : Option StorageClass := none
  noncurrent_version_transition_newer_versions : Option Nat := none
  abort_incomplete_multipart_upload_days_after_initiation : Option Nat := none
deriving DecidableEq

structure LifecycleConfiguration where
  bucket : String
  rules : List LifecycleRule
deriving DecidableEq

/-- Validation errors of src/domain/models/lifecycle.rs. -/
inductive ValidationError where
  | DuplicateRuleId (id : String)
  | RuleIdTooLong (id : String)
  | NoActionsInRule (id : String)
  | EmptyRuleId
  | ConflictingExpirationSettings
  | ConflictingTransitionSettings
deriving DecidableEq

namespace LifecycleRule

/-- `LifecycleRule::has_any_action`. -/
def has_any_action (r : LifecycleRule) : Bool :=
  r.expiration_days.isSome
    || r.expiration_date.isSome
    || r.expiration_expired_object_delete_marker.isSome
    || r.expiration_expired_object_all_versions.isSome
    || r.del_marker_expiration_days.isSome
    || r.all_versions_expiration_days.isSome
    || r.transition_days.isSome
    || r.transition_date.isSome
    || r.noncurrent_version_expiration_noncurrent_days.isSome
    || r.noncurrent_version_transition_noncurrent_days.isSome
    || r.abort_incomplete_multipart_upload_days_after_initiation.isSome

/-- `LifecycleRule::validate`; `id.len()` is the byte length. -/
def validate (r : LifecycleRule) : Except ValidationError Unit :=
  if r.id.isEmpty then .error .EmptyRuleId
  else if 255 < r.id.utf8ByteSize then .error (.RuleIdTooLong r.id)
  else if r.expiration_days.isSome && r.expiration_date.isSome then
    .error .ConflictingExpirationSettings
  else if r.transition_days.isSome && r.transition_date.isSome then
    .error .ConflictingTransitionSettings
  else if !r.has_any_action then .error (.NoActionsInRule r.id)
  else .ok ()

/-- `LifecycleRule::matches` (`matches` is a Lean keyword, hence the suffix). -/
def matchesB (r : LifecycleRule) (key : String) (tags : List (String × String))
    (object_size : Nat) : Bool :=
  if r.status ≠ .Enabled then false
  else r.filter.matchesB key tags object_size

end LifecycleRule

/-- The loop body of `LifecycleConfiguration::validate`; `seen` accumulates
the ids inserted into the `HashSet` so far. -/
def validateRules (seen : List String) : List LifecycleRule → Except ValidationError Unit
  | [] => .ok ()
  | r :: rest =>
    if seen.contains r.id then .error (.DuplicateRuleId r.id)
    else if 255 < r.id.utf8ByteSize then .error (.RuleIdTooLong r.id)
    else if !r.has_any_action then .error (.NoActionsInRule r.id)
    else validateRules (r.id :: seen) rest

/-- `LifecycleConfiguration::validate`. -/
def LifecycleConfiguration.validate (c : LifecycleConfiguration) :
    Except ValidationError Unit :=
  validateRules [] c.rules

/-! ## Lifecycle evaluation (src/services/lifecycle_service_impl.rs) -/

/-- `EvaluateLifecycleRequest`; `SystemTime` is `Nat` seconds. -/
structure EvaluateLifecycleRequest where
  key : String
  object_created_at : Nat
  object_tags : List (String × String) := []
  is_delete_marker : Bool := false
  is_current_version : Bool := true
deriving DecidableEq

inductive LifecycleAction where
  | Expiration (days : Option Nat) (date : Option Nat)
  | Transition (days : Option Nat) (date : Option Nat) (storage_class : StorageClass)
  | AbortIncompleteMultipartUpload (days_after_initiation : Nat)
  | ExpireDeleteMarker (days : Nat)
  | NonCurrentVersionExpiration (days : Nat)
  | NonCurrentVersionTransition (days : Nat) (storage_class : StorageClass)
deriving DecidableEq

structure ApplicableAction where
  rule_id : String
  action : LifecycleAction
  reason : String
deriving DecidableEq

/-- The subset of `LifecycleError` (src/domain/errors/lifecycle_errors.rs)
reachable from the embedded operations. -/
inductive LifecycleError where
  | ConfigurationNotFound (bucket : String)
  | RuleNotFound (rule_id : String)
  | ValidationFailed (errors : List String)
  | RepositoryError (message : String)
  | ActionExecutionFailed (action : String) (reason : String)
deriving DecidableEq

/-- `LifecycleServiceImpl::should_expire_by_days`.  `duration_since` fails on
a future `created_at` and the source falls back to a zero age via
`unwrap_or`, which is exactly truncated `Nat` subtraction. -/
def should_expire_by_days (request : EvaluateLifecycleRequest) (days : Nat)
    (current_time : Nat) : Bool :=
  days * 86400 ≤ current_time - request.object_created_at

/-- `LifecycleServiceImpl::should_expire_by_date`. -/
def should_expire_by_date (expiration_date : Nat) (current_time : Nat) : Bool :=
  expiration_date ≤ current_time

/-- `LifecycleServiceImpl::should_transition_by_days` delegates to
`should_expire_by_days`. -/
def should_transition_by_days (request : EvaluateLifecycleRequest) (days : Nat)
    (current_time : Nat) : Bool :=
  should_expire_by_days request days current_time

/-! The body of the `for rule in &config.rules` loop of
`LifecycleServiceImpl::evaluate_object_lifecycle` (lines 124-241), one
definition per source block, in source order.  Note that the filter is
invoked with object size `0` and that `transition_date` is never
consulted. -/

/-- Lines 135-146: expire by days. -/
def expiration_days_actions (rule : LifecycleRule) (req : EvaluateLifecycleRequest)
    (current_time : Nat) : List ApplicableAction :=
  match rule.expiration_days with
  | some days =>
    if should_expire_by_days req days current_time then
      [⟨rule.id, .Expiration (some days) none,
        "Object is " ++ toString days ++ " days old"⟩]
    else []
  | none => []

/-- Lines 148-159: expire by date. -/
def expiration_date_actions (rule : LifecycleRule) (current_time : Nat) :
    List ApplicableAction :=
  match rule.expiration_date with
  | some date =>
    if should_expire_by_date date current_time then
      [⟨rule.id, .Expiration none (some date),
        "Object scheduled to expire on " ++ toString date⟩]
    else []
  | none => []

/-- Lines 161-180: transition, only by `transition_days` and only with a
storage class. -/
def transition_actions (rule : LifecycleRule) (req : EvaluateLifecycleRequest)
    (current_time : Nat) : List ApplicableAction :=
  match rule.transition_days, rule.transition_storage_class with
  | some days, some storage_class =>
    if should_transition_by_days req days current_time then
      [⟨rule.id, .Transition (some days) none storage_class,
        "Object should transition to " ++ storage_class.as_str
          ++ " after " ++ toString days ++ " days"⟩]
    else []
  | _, _ => []

/-- Lines 182-193: delete-marker expiration. -/
def del_marker_actions (rule : LifecycleRule) (req : EvaluateLifecycleRequest)
    (current_time : Nat) : List ApplicableAction :=
  match rule.del_marker_expiration_days with
  | some days =>
    if req.is_delete_marker && should_expire_by_days req days current_time then
      [⟨rule.id, .ExpireDeleteMarker days,
        "Delete marker is " ++ toString days ++ " days old"⟩]
    else []
  | none => []

/-- Lines 195-206: non-current-version expiration. -/
def noncurrent_expiration_actions (rule : LifecycleRule)
    (req : EvaluateLifecycleRequest) (current_time : Nat) : List ApplicableAction :=
  match rule.noncurrent_version_expiration_noncurrent_days with
  | some days =>
    if !req.is_current_version && should_expire_by_days req days current_time then
      [⟨rule.id, .NonCurrentVersionExpiration days,
        "Non-current version is " ++ toString days ++ " days old"⟩]
    else []
  | none => []

/-- Lines 208-227: non-current-version transition. -/
def noncurrent_transition_actions (rule : LifecycleRule)
    (req : EvaluateLifecycleRequest) (current_time : Nat) : List ApplicableAction :=
  match rule.noncurrent_version_transition_noncurrent_days,
    rule.noncurrent_version_transition_storage_class with
  | some days, some storage_class =>
    if !req.is_current_version && should_transition_by_days req days current_time then
      [⟨rule.id, .NonCurrentVersionTransition days storage_class,
        "Non-current version should transition after " ++ toString days ++ " days"⟩]
    else []
  | _, _ => []

/-- Lines 229-240: abort incomplete multipart uploads, proposed
unconditionally when configured. -/
def abort_multipart_actions (rule : LifecycleRule) : List ApplicableAction :=
  match rule.abort_incomplete_multipart_upload_days_after_initiation with
  | some days =>
    [⟨rule.id, .AbortIncompleteMultipartUpload days,
      "Cleanup incomplete uploads after " ++ toString days ++ " days"⟩]
  | none => []

/-- The actions one rule contributes: the `continue` guards (status, then
`rule.matches` with object size `0`), then the seven blocks in push order. -/
def evalRule (rule : LifecycleRule) (req : EvaluateLifecycleRequest)
    (current_time : Nat) : List ApplicableAction :=
  if rule.status ≠ .Enabled then []
  else if !rule.matchesB req.key req.object_tags 0 then []
  else
    expiration_days_actions rule req current_time
    ++ expiration_date_actions rule current_time
    ++ transition_actions rule req current_time
    ++ del_marker_actions rule req current_time
    ++ noncurrent_expiration_actions rule req current_time
    ++ noncurrent_transition_actions rule req current_time
    ++ abort_multipart_actions rule

/-! ## Bucket names (src/domain/value_objects/bucket_name.rs) -/

/-- Rust `part.parse::<u8>().is_ok()`: an optional leading `+`, at least
one ASCII digit, and a value of at most 255. -/
def parses_as_u8 (part : List Char) : Bool :=
  let core := match part with
    | '+' :: t => t
    | _ => part
  !core.isEmpty && core.all Char.isDigit && digitsToNat core ≤ 255

/-- `BucketName::looks_like_ip_address`. -/
def looks_like_ip_address (s : String) : Bool :=
  let parts := splitOnChar '.' s.data
  if parts.length ≠ 4 then false
  else parts.all parses_as_u8

/-- `BucketName::new` succeeds; lengths are byte lengths,
`is_ascii_lowercase`/`is_ascii_digit` are `Char.isLower`/`Char.isDigit`. -/
def bucket_name_valid (s : String) : Bool :=
  3 ≤ s.utf8ByteSize && s.utf8ByteSize ≤ 63
  && (match s.data.head? with
      | some c => c.isLower || c.isDigit
      | none => false)
  && (match s.data.getLast? with
      | some c => c.isLower || c.isDigit
      | none => false)
  && s.data.all (fun c => c.isLower || c.isDigit || c = '-')
  && !strContains s "--"
  && !looks_like_ip_address s

/-- `LifecycleServiceImpl::extract_bucket_from_key`: the first
`'/'`-separated component of the key, validated as a bucket name.  The
source's error messages are abbreviated; only the error constructor is
relevant here. -/
def extract_bucket_from_key (key : String) : Except LifecycleError String :=
  match (splitOnChar '/' key.data).head? with
  | some b =>
    if bucket_name_valid (String.mk b) then .ok (String.mk b)
    else .error (.ValidationFailed ["Invalid bucket name in key"])
  | none => .error (.ValidationFailed ["Cannot extract bucket from object key"])

/-- `LifecycleServiceImpl::evaluate_object_lifecycle`.  The lifecycle
repository (in-memory: a bucket-to-configuration `HashMap` behind a lock) is
modelled by the association list `configs`; `get_configuration` is its
lookup and never fails. -/
def evaluate_object_lifecycle (configs : List (String × LifecycleConfiguration))
    (req : EvaluateLifecycleRequest) (current_time : Nat) :
    Except LifecycleError (List ApplicableAction) :=
  match extract_bucket_from_key req.key with
  | .error e => .error e
  | .ok bucket_name =>
    match lookupS configs bucket_name with
    | none => .ok []
    | some config =>
      .ok (config.rules.foldl (fun acc rule => acc ++ evalRule rule req current_time) [])

/-! ## Object and version metadata (src/domain/models/object.rs) -/

structure ObjectMetadata where
  content_type : Option String := none
  content_length : Nat := 0
  etag : Option String := none
  last_modified : Nat
  custom_metadata : List (String × String) := []
deriving DecidableEq

structure ObjectVersionInfo where
  version_id : String
  last_modified : Nat
  size : Nat
  etag : Option String
  is_latest : Bool
  deleted : Bool
deriving DecidableEq

structure VersionedObject where
  key : String
  version_id : String
  data : List Nat
  metadata : ObjectMetadata
  is_latest : Bool
  deleted : Bool
deriving DecidableEq

/-- The subset of `StorageError` (src/domain/errors/storage_errors.rs)
reachable from the embedded operations. -/
inductive StorageError where
  | ObjectNotFound (key : String)
  | VersionNotFound (key : String) (version_id : String)
  | ValidationError (message : String)
  | InfrastructureError (message : String)
deriving DecidableEq

/-! ## In-memory object repository
(src/adapters/outbound/persistence/in_memory_object_repository.rs)

`RepositoryData` holds the two `HashMap`s; `StoredVersion` pairs the saved
metadata with the tombstone flag. -/

structure StoredVersion where
  metadata : ObjectMetadata
  deleted : Bool
deriving DecidableEq

structure RepositoryData where
  objects : List (String × List (String × StoredVersion)) := []
  latest_versions : List (String × String) := []
deriving DecidableEq

/-- `save_object_metadata`: store the version (not deleted) and point the
latest pointer at it.  Never fails. -/
def save_object_metadata (d : RepositoryData) (key version_id : String)
    (metadata : ObjectMetadata) : RepositoryData :=
  let versions := (lookupS d.objects key).getD []
  { objects := insertS d.objects key (insertS versions version_id ⟨metadata, false⟩),
    latest_versions := insertS d.latest_versions key version_id }

/-- `get_object_metadata`: resolve the version (given, or the latest
pointer), then look it up and filter out tombstoned versions. -/
def get_object_metadata (d : RepositoryData) (key : String)
    (version_id : Option String) : Option ObjectMetadata :=
  match (match version_id with
         | some v => some v
         | none => lookupS d.latest_versions key) with
  | none => none
  | some version_str =>
    match lookupS d.objects key with
    | none => none
    | some versions =>
      match lookupS versions version_str with
      | none => none
      | some stored => if stored.deleted then none else some stored.metadata

/-- `list_object_versions`: every stored version with `is_latest` derived
from the latest pointer.  The source iterates a `std::collections::HashMap`,
whose iteration order is unspecified; `iter` stands for the entry sequence
that iteration yields, constrained by `IterAdmissible` to be a permutation
of the stored entries. -/
def list_object_versions (d : RepositoryData) (key : String)
    (iter : List (String × StoredVersion)) : List ObjectVersionInfo :=
  iter.map (fun p =>
    ⟨p.1, p.2.metadata.last_modified, p.2.metadata.content_length, p.2.metadata.etag,
      lookupS d.latest_versions key == some p.1, p.2.deleted⟩)

/-- The entry sequences the `HashMap` iteration can yield for a key's
version map: exactly the permutations of the stored entries (an absent key
yields the empty iteration, matching `unwrap_or_default`). -/
def IterAdmissible (d : RepositoryData) (key : String)
    (iter : List (String × StoredVersion)) : Prop :=
  iter.Perm ((lookupS d.objects key).getD [])

instance iterAdmissibleDecidable (d : RepositoryData) (key : String)
    (iter : List (String × StoredVersion)) : Decidable (IterAdmissible d key iter) := by
  unfold IterAdmissible
  infer_instance

/-- `get_latest_version_id`: the raw latest pointer (the source re-validates
the stored id through `VersionId::new`, the identity on ids it stored). -/
def get_latest_version_id (d : RepositoryData) (key : String) : Option String :=
  lookupS d.latest_versions key

/-- `mark_version_deleted`: flip the tombstone flag; the latest pointer is
left untouched. -/
def mark_version_deleted (d : RepositoryData) (key version_id : String) :
    Except StorageError RepositoryData :=
  match lookupS d.objects key with
  | some versions =>
    match lookupS versions version_id with
    | some stored =>
      .ok { d with objects :=
              insertS d.objects key (insertS versions version_id ⟨stored.metadata, true⟩) }
    | none => .error (.VersionNotFound key version_id)
  | none => .error (.VersionNotFound key version_id)

/-- Rust `Iterator::max_by_key`: the maximum, and the last of several equal
maxima; `acc` is the best element seen so far. -/
def maxByKeyLast {α : Type} (f : α → Nat) : Option α → List α → Option α
  | acc, [] => acc
  | none, x :: t => maxByKeyLast f (some x) t
  | some y, x :: t => maxByKeyLast f (if f y ≤ f x then some x else some y) t

/-- `delete_version_metadata`: remove the version entry; if it was the
latest, re-point the latest pointer at the remaining non-deleted version
with the greatest `last_modified` (or drop the pointer); prune the key
entirely when no versions remain.  The source computes `new_latest` only
under `should_update_latest`; computing it unconditionally and using it
under the same guard is equivalent. -/
def delete_version_metadata (d : RepositoryData) (key version_id : String) :
    Except StorageError RepositoryData :=
  let should_update_latest := lookupS d.latest_versions key == some version_id
  match lookupS d.objects key with
  | none => .error (.ObjectNotFound key)
  | some versions =>
    match lookupS versions version_id with
    | none => .error (.VersionNotFound key version_id)
    | some _ =>
      let versions' := eraseS versions version_id
      let new_latest :=
        (maxByKeyLast (fun p => p.2.metadata.last_modified) none
          (versions'.filter (fun p => !p.2.deleted))).map (fun p => p.1)
      let should_remove_object := versions'.isEmpty
      let objects1 := insertS d.objects key versions'
      let latest1 :=
        if should_update_latest then
          match new_latest with
          | some v => insertS d.latest_versions key v
          | none => eraseS d.latest_versions key
        else d.latest_versions
      if should_remove_object then
        .ok ⟨eraseS objects1 key, eraseS latest1 key⟩
      else
        .ok ⟨objects1, latest1⟩

/-- `object_exists`: the key is present with at least one live version. -/
def object_exists (d : RepositoryData) (key : String) : Bool :=
  match lookupS d.objects key with
  | some versions => versions.any (fun p => !p.2.deleted)
  | none => false

/-! ## Versioned store and versioning service
(src/adapters/outbound/storage/apache_object_store_adapter.rs,
src/services/versioning_service_impl.rs)

The `VersionedObjectStore` port backed by the in-memory Apache store is a
map from `(key, version_id)` to bytes; the adapter addresses it through
`versioned_path`, so the pair is the effective key. -/

/-- `VersionedApacheObjectStoreAdapter::versioned_path`. -/
def adapter_versioned_path (key version_id : String) : String :=
  key ++ "/.versions/" ++ version_id

/-- `VersionedStore::versioned_path`
(src/adapters/outbound/storage/versioning.rs, lines 68-76). -/
def versioned_path (path version_id : String) : String :=
  path ++ ".v_" ++ version_id

/-- The external `md5` digest behind etags, abstracted as an executable
injective placeholder; no verified claim depends on digest values. -/
def md5_compute (data : List Nat) : String :=
  toString data

/-- System state: repository metadata plus the versioned byte store. -/
structure SysState where
  repo : RepositoryData := {}
  store : List ((String × String) × List Nat) := []
deriving DecidableEq

/-- `VersioningServiceImpl::create_versioned_object`.  The minted
`VersionId::generate()` value and the `SystemTime::now()` reading are the
`version_id` and `now` parameters.  The max-version pruning branch is dead
code in the source (`extract_bucket_from_key` there always returns `None`)
and is omitted. -/
def create_versioned_object (s : SysState) (key : String) (data : List Nat)
    (content_type : Option String) (custom_metadata : List (String × String))
    (version_id : String) (now : Nat) : SysState :=
  let metadata : ObjectMetadata :=
    { content_type := content_type, content_length := data.length,
      etag := some (md5_compute data), last_modified := now,
      custom_metadata := custom_metadata }
  { repo := save_object_metadata s.repo key version_id metadata,
    store := insertS s.store (key, version_id) data }

/-- `VersioningServiceImpl::get_object`. -/
def get_object (s : SysState) (key : String) (version_id : Option String) :
    Except StorageError VersionedObject :=
  match (match version_id with
         | some v => Except.ok v
         | none =>
           match get_latest_version_id s.repo key with
           | some v => Except.ok v
           | none => Except.error (StorageError.ObjectNotFound key)) with
  | .error e => .error e
  | .ok vid =>
    match get_object_metadata s.repo key (some vid) with
    | none => .error (.VersionNotFound key vid)
    | some metadata =>
      match lookupS s.store (key, vid) with
      | none => .error (.ObjectNotFound (adapter_versioned_path key vid))
      | some data =>
        .ok ⟨key, vid, data, metadata,
          get_latest_version_id s.repo key == some vid, false⟩

/-- `VersioningServiceImpl::delete_version`: tombstone the metadata, then
physically delete the versioned bytes (the in-memory backing store fails
with NotFound when they are absent). -/
def service_delete_version (s : SysState) (key version_id : String) :
    Except StorageError SysState :=
  match mark_version_deleted s.repo key version_id with
  | .error e => .error e
  | .ok repo' =>
    match lookupS s.store (key, version_id) with
    | none => .error (.ObjectNotFound (adapter_versioned_path key version_id))
    | some _ => .ok ⟨repo', eraseS s.store (key, version_id)⟩

/-- The delete-version operation of spec section 4.2, composed from the two
source functions the spec cites for it:
`ObjectRepository::delete_version_metadata` (history entry and latest
pointer) followed by `VersionedObjectStore::delete_version` (physical
removal of the versioned bytes), in the repository-then-store order of
`VersioningServiceImpl::delete_version`. -/
def hard_delete_version (s : SysState) (key version_id : String) :
    Except StorageError SysState :=
  match delete_version_metadata s.repo key version_id with
  | .error e => .error e
  | .ok repo' =>
    match lookupS s.store (key, version_id) with
    | none => .error (.ObjectNotFound (adapter_versioned_path key version_id))
    | some _ => .ok ⟨repo', eraseS s.store (key, version_id)⟩

/-! ## Operation sequences over the versioned store -/

inductive Op where
  | put (key version_id : String) (data : List Nat) (content_type : Option String)
        (custom_metadata : List (String × String)) (time : Nat)
  | del (key version_id : String)
deriving DecidableEq

/-- `t` is later than every creation time recorded in the repository: the
monotone-clock assumption for a `SystemTime::now()` reading taken after all
recorded writes. -/
def FreshTime (s : SysState) (t : Nat) : Prop :=
  ∀ k vs v sv, lookupS s.repo.objects k = some vs → lookupS vs v = some sv →
    sv.metadata.last_modified < t

/-- States reached from the empty store by a sequence of successful `put`
(`create_versioned_object`) and `delete_version` (`hard_delete_version`)
operations, recording the trace. -/
inductive Reach : List Op → SysState → Prop where
  | init : Reach [] {}
  | put {tr s k vid data ct cm t} : Reach tr s → FreshTime s t →
      Reach (tr ++ [Op.put k vid data ct cm t]) (create_versioned_object s k data ct cm vid t)
  | del {tr s s' k vid} : Reach tr s → hard_delete_version s k vid = .ok s' →
      Reach (tr ++ [Op.del k vid]) s'

/-- The data of the last `put` to `(key, version_id)` in the trace. -/
def lastPutData (tr : List Op) (key version_id : String) : Option (List Nat) :=
  tr.foldl (fun acc op => match op with
    | .put k v d _ _ _ => if k = key ∧ v = version_id then some d else acc
    | .del _ _ => acc) none

/-! ## Identifier validation (src/domain/value_objects) -/

/-- `ObjectKey::new` succeeds: non-empty, at most 1024 bytes, no NUL byte,
no leading slash, no double slash. -/
def object_key_valid (s : String) : Bool :=
  !s.isEmpty && s.utf8ByteSize ≤ 1024
    && !s.data.contains (Char.ofNat 0)
    && !strStartsWith s "/"
    && !strContains s "//"

/-- `VersionId::new` succeeds: non-empty, at most 1024 bytes, characters
alphanumeric or `-`, `_`, `.` (Rust's Unicode `is_alphanumeric` restricted
to the ASCII inputs that occur here). -/
def version_id_valid (s : String) : Bool :=
  !s.isEmpty && s.utf8ByteSize ≤ 1024
    && s.data.all (fun c => c.isAlphanum || c = '-' || c = '_' || c = '.')

/-! ## Bucket lifecycle processing
(`LifecycleServiceImpl::process_bucket_lifecycle`, lines 305-437)

The trait-object collaborators are passed as functions: `list_result` is the
outcome of `ObjectStore::list_objects`, `evaluateF` of
`evaluate_object_lifecycle` and `applyF` of `apply_lifecycle_actions` for
one object.  Durations and the processing-status map (wall-clock state) are
not modelled. -/

structure ObjectInfo where
  key : String
  size : Nat := 0
  last_modified : Nat := 0
  etag : Option String := none
deriving DecidableEq

structure ProcessingError where
  object_key : String
  rule_id : String
  error : String
deriving DecidableEq

structure AppliedAction where
  rule_id : String
  action_type : String
deriving DecidableEq

structure FailedAction where
  rule_id : String
  action_type : String
  error : String
deriving DecidableEq

structure LifecycleActionResults where
  object_key : String
  applied_actions : List AppliedAction
  failed_actions : List FailedAction
deriving DecidableEq

structure BucketLifecycleResults where
  bucket : String
  objects_processed : Nat
  objects_affected : Nat
  actions_applied : Nat
  errors : List ProcessingError
deriving DecidableEq

/-- One iteration of the `for object_info in objects` loop: the increments
to `objects_affected` and `actions_applied` and the errors this object
contributes. -/
def processOne (evaluateF : ObjectInfo → Except String (List ApplicableAction))
    (applyF : String → List ApplicableAction → Except String LifecycleActionResults)
    (object_info : ObjectInfo) : Nat × Nat × List ProcessingError :=
  match evaluateF object_info with
  | .ok evaluation =>
    if evaluation.isEmpty then (0, 0, [])
    else
      match applyF object_info.key evaluation with
      | .ok results =>
        (1, results.applied_actions.length,
          results.failed_actions.map (fun failed =>
            ⟨object_info.key, failed.rule_id, failed.error⟩))
      | .error e => (1, 0, [⟨object_info.key, "apply_actions", e⟩])
  | .error e => (0, 0, [⟨object_info.key, "evaluation", e⟩])

/-- The whole object loop, accumulating in list order. -/
def processObjects (evaluateF : ObjectInfo → Except String (List ApplicableAction))
    (applyF : String → List ApplicableAction → Except String LifecycleActionResults) :
    List ObjectInfo → Nat × Nat × Nat × List ProcessingError
  | [] => (0, 0, 0, [])
  | object_info :: rest =>
    let step := processOne evaluateF applyF object_info
    let acc := processObjects evaluateF applyF rest
    (acc.1 + 1, step.1 + acc.2.1, step.2.1 + acc.2.2.1, step.2.2 ++ acc.2.2.2)

/-- `LifecycleServiceImpl::process_bucket_lifecycle`: a listing failure
aborts the pass with a single system error and zero counts; otherwise every
object is processed and per-object failures only contribute errors. -/
def process_bucket_lifecycle (bucket : String)
    (list_result : Except String (List ObjectInfo))
    (evaluateF : ObjectInfo → Except String (List ApplicableAction))
    (applyF : String → List ApplicableAction → Except String LifecycleActionResults) :
    BucketLifecycleResults :=
  match list_result with
  | .error e =>
    ⟨bucket, 0, 0, 0, [⟨"unknown", "system", "Failed to list bucket objects: " ++ e⟩]⟩
  | .ok objects =>
    let acc := processObjects evaluateF applyF objects
    ⟨bucket, acc.1, acc.2.1, acc.2.2.1, acc.2.2.2⟩

/-! ## Helper predicates and concrete states for the claims -/

def isExpirationAction : LifecycleAction → Bool
  | .Expiration _ _ => true
  | _ => false

def isTransitionAction : LifecycleAction → Bool
  | .Transition _ _ _ => true
  | _ => false

def isObjectNotFoundErr {α : Type} : Except StorageError α → Bool
  | .error (.ObjectNotFound _) => true
  | _ => false

/-- An enabled expire-after-30-days rule with an empty filter. -/
def expireRule30 : LifecycleRule :=
  { id := "r1", status := .Enabled, expiration_days := some 30 }

/-- An enabled rule whose only action is a transition at date 10 to
Glacier: valid, matches everything, and `transition_days` is unset. -/
def transitionDateRule : LifecycleRule :=
  { id := "t1", status := .Enabled, transition_date := some 10,
    transition_storage_class := some .Glacier }

/-- An enabled transition-after-30-days-to-Glacier rule. -/
def transitionDaysRule30 : LifecycleRule :=
  { id := "t2", status := .Enabled, transition_days := some 30,
    transition_storage_class := some .Glacier }

/-- An enabled expire-immediately rule gated on object size above 5. -/
def sizeFloorRule5 : LifecycleRule :=
  { id := "g1", status := .Enabled, expiration_days := some 0,
    filter := { object_size_greater_than := some 5 } }

/-- An enabled expire-immediately rule gated on object size above 0. -/
def sizeFloorRule0 : LifecycleRule :=
  { id := "g0", status := .Enabled, expiration_days := some 0,
    filter := { object_size_greater_than := some 0 } }

/-- A request for an object created at time 0 under key `logs/a.txt`. -/
def reqAt0 : EvaluateLifecycleRequest :=
  { key := "logs/a.txt", object_created_at := 0 }

/-- State after `put("data/k", [1,2]) -> v1` at time 5. -/
def demo1 : SysState := create_versioned_object {} "data/k" [1, 2] none [] "v1" 5

/-- State after a second `put("data/k", [3,4]) -> v2` at time 9. -/
def demo2 : SysState := create_versioned_object demo1 "data/k" [3, 4] none [] "v2" 9

/-- `demo2` after the service-level (tombstoning) `delete_version` of `v2`. -/
def demo2tomb : SysState :=
  ((service_delete_version demo2 "data/k" "v2").toOption).getD {}

/-- C6 scenario evaluator: evaluation fails exactly for object `b/o2`. -/
def probeEvalF (oi : ObjectInfo) : Except String (List ApplicableAction) :=
  if oi.key = "b/o2" then .error "evaluation failed" else .ok []

/-- C6 scenario applier: always succeeds with no actions. -/
def probeApplyF (_key : String) (_actions : List ApplicableAction) :
    Except String LifecycleActionResults :=
  .ok ⟨"", [], []⟩

/-- Three bucket objects for the C6 scenario. -/
def threeObjects : List ObjectInfo :=
  [⟨"b/o1", 0, 0, none⟩, ⟨"b/o2", 0, 0, none⟩, ⟨"b/o3", 0, 0, none⟩]

/-- `demo2` after the hard (spec 4.2) `delete_version` of the latest `v2`. -/
def demo2del : SysState :=
  ((hard_delete_version demo2 "data/k" "v2").toOption).getD {}

/-- `demo1` after the hard `delete_version` of its only version `v1`. -/
def demo1del : SysState :=
  ((hard_delete_version demo1 "data/k" "v1").toOption).getD {}

/-- The inductive invariant of the versioned store under `Reach`: version
lists are well-formed and live, the latest pointer designates a stored,
non-deleted version with the strictly greatest creation time, and the store
holds, for every recorded version, exactly the bytes of its last `put`. -/
structure C1Inv (tr : List Op) (s : SysState) : Prop where
  inner_nodup : ∀ k vs, lookupS s.repo.objects k = some vs → NodupKeys vs
  nonempty : ∀ k vs, lookupS s.repo.objects k = some vs → vs ≠ []
  latest_exists : ∀ k vs, lookupS s.repo.objects k = some vs →
    (lookupS s.repo.latest_versions k).isSome
  objects_exists : ∀ k v, lookupS s.repo.latest_versions k = some v →
    ∃ vs, lookupS s.repo.objects k = some vs
  all_live : ∀ k vs v sv, lookupS s.repo.objects k = some vs →
    lookupS vs v = some sv → sv.deleted = false
  latest_max : ∀ k v, lookupS s.repo.latest_versions k = some v →
    ∃ vs sv, lookupS s.repo.objects k = some vs ∧ lookupS vs v = some sv ∧
      ∀ w sw, lookupS vs w = some sw → w ≠ v →
        sw.metadata.last_modified < sv.metadata.last_modified
  distinct_times : ∀ k vs, lookupS s.repo.objects k = some vs →
    ∀ v sv w sw, lookupS vs v = some sv → lookupS vs w = some sw → v ≠ w →
      sv.metadata.last_modified ≠ sw.metadata.last_modified
  store_data : ∀ k vs v sv, lookupS s.repo.objects k = some vs →
    lookupS vs v = some sv →
    lookupS s.store (k, v) = lastPutData tr k v ∧ (lastPutData tr k v).isSome

/-! ## Proofs: association-list lemmas -/

theorem lookupS_insertS_self {κ α : Type} [DecidableEq κ] (l : List (κ × α)) (k : κ) (v : α) :
    lookupS (insertS l k v) k = some v := by
  induction l with
  | nil => simp [insertS, lookupS]
  | cons p t ih =>
    obtain ⟨a, b⟩ := p
    by_cases h : a = k <;> simp [insertS, lookupS, h, ih]

theorem lookupS_insertS_ne {κ α : Type} [DecidableEq κ] (l : List (κ × α)) (k k' : κ) (v : α)
    (h : k ≠ k') : lookupS (insertS l k v) k' = lookupS l k' := by
  induction l with
  | nil => simp [insertS, lookupS, h]
  | cons p t ih =>
    obtain ⟨a, b⟩ := p
    by_cases ha : a = k
    · subst ha
      simp [insertS, lookupS, h]
    · by_cases ha' : a = k'
      · subst ha'
        simp [insertS, lookupS, ha, Ne.symm h]
      · simp [insertS, lookupS, ha, ha', ih]

theorem lookupS_eraseS_self {κ α : Type} [DecidableEq κ] (l : List (κ × α)) (k : κ) :
    lookupS (eraseS l k) k = none := by
  induction l with
  | nil => simp [eraseS, lookupS]
  | cons p t ih =>
    obtain ⟨a, b⟩ := p
    by_cases h : a = k <;> simp_all [eraseS, lookupS, List.filter]

theorem lookupS_eraseS_ne {κ α : Type} [DecidableEq κ] (l : List (κ × α)) (k k' : κ)
    (h : k ≠ k') : lookupS (eraseS l k) k' = lookupS l k' := by
  induction l with
  | nil => simp [eraseS, lookupS]
  | cons p t ih =>
    obtain ⟨a, b⟩ := p
    by_cases ha : a = k <;> by_cases ha' : a = k' <;>
      simp_all [eraseS, lookupS, List.filter]

theorem lookupS_mem {κ α : Type} [DecidableEq κ] {l : List (κ × α)} {k : κ} {v : α}
    (h : lookupS l k = some v) : (k, v) ∈ l := by
  induction l with
  | nil => simp [lookupS] at h
  | cons p t ih =>
    obtain ⟨a, b⟩ := p
    by_cases ha : a = k
    · subst ha
      simp [lookupS] at h
      simp [h]
    · simp [lookupS, ha] at h
      exact List.mem_cons_of_mem _ (ih h)

theorem mem_lookupS {κ α : Type} [DecidableEq κ] {l : List (κ × α)} {k : κ} {v : α}
    (hnd : NodupKeys l) (h : (k, v) ∈ l) : lookupS l k = some v := by
  induction l with
  | nil => simp at h
  | cons p t ih =>
    obtain ⟨a, b⟩ := p
    rcases List.mem_cons.mp h with heq | hmem
    · cases heq
      simp [lookupS]
    · have hne : a ≠ k := by
        have := (List.pairwise_cons.mp hnd).1 _ hmem
        simpa using this
      simp [lookupS, hne]
      exact ih (List.pairwise_cons.mp hnd).2 hmem

theorem mem_insertS_cases {κ α : Type} [DecidableEq κ] {t : List (κ × α)} {k : κ} {v : α}
    {q : κ × α} (hq : q ∈ insertS t k v) : q.1 = k ∨ q ∈ t := by
  induction t with
  | nil =>
    simp [insertS] at hq
    simp [hq]
  | cons p t ih =>
    obtain ⟨a, b⟩ := p
    by_cases ha : a = k
    · subst ha
      simp only [insertS, if_pos rfl] at hq
      rcases List.mem_cons.mp hq with h | h
      · simp [h]
      · simp [h]
    · simp only [insertS, if_neg ha] at hq
      rcases List.mem_cons.mp hq with h | h
      · simp [h]
      · rcases ih h with h' | h'
        · exact Or.inl h'
        · simp [h']

theorem nodupKeys_insertS {κ α : Type} [DecidableEq κ] {l : List (κ × α)} (k : κ) (v : α)
    (h : NodupKeys l) : NodupKeys (insertS l k v) := by
  induction l with
  | nil => simp [insertS, NodupKeys]
  | cons p t ih =>
    obtain ⟨a, b⟩ := p
    obtain ⟨h1, h2⟩ := List.pairwise_cons.mp h
    by_cases ha : a = k
    · subst ha
      simp only [insertS, if_pos rfl]
      exact List.pairwise_cons.mpr ⟨h1, h2⟩
    · simp only [insertS, if_neg ha]
      refine List.pairwise_cons.mpr ⟨?_, ih h2⟩
      intro q hq
      rcases mem_insertS_cases hq with hq' | hq'
      · rw [hq']
        exact ha
      · exact h1 _ hq'

theorem nodupKeys_eraseS {κ α : Type} [DecidableEq κ] {l : List (κ × α)} (k : κ)
    (h : NodupKeys l) : NodupKeys (eraseS l k) :=
  List.Pairwise.sublist (List.filter_sublist l) h

theorem mem_eraseS {κ α : Type} [DecidableEq κ] {l : List (κ × α)} {k : κ} {q : κ × α}
    (hq : q ∈ eraseS l k) : q ∈ l ∧ q.1 ≠ k := by
  have := List.mem_filter.mp hq
  refine ⟨this.1, by simpa using this.2⟩


/-! ## Proofs: filters and validation (claims C7, C8) -/

/-- C7: `Filter::matches(key, tags, size)` returns true iff, when a prefix
is set, the key starts with it; every required tag is present with an equal
value; and the size bounds are strictly exclusive when set.  A filter with
no prefix, no tags and no size bounds matches every object. -/
theorem c7_filter_matches_iff (f : Filter) (key : String)
    (object_tags : List (String × String)) (object_size : Nat) :
    (f.matchesB key object_tags object_size = true ↔
      ((∀ p, f.prefix_opt = some p → strStartsWith key p = true)
        ∧ (∀ k v, (k, v) ∈ f.tags → lookupS object_tags k = some v)
        ∧ (∀ n, f.object_size_greater_than = some n → n < object_size)
        ∧ (∀ n, f.object_size_less_than = some n → object_size < n)))
    ∧ (f.is_empty = true → f.matchesB key object_tags object_size = true) := by
  obtain ⟨po, tags, gt, lt⟩ := f
  constructor
  · cases po <;> cases gt <;> cases lt <;>
      simp [Filter.matchesB, List.all_eq_true, Prod.forall, and_assoc]
  · intro he
    simp [Filter.is_empty] at he
    obtain ⟨h1, h2, h3, h4⟩ := he
    cases po <;> simp_all [Filter.matchesB, List.isEmpty_iff]

/-- C7 witness: concrete filter evaluations, including the spec's examples;
the empty-filter case is obtained from the theorem. -/
theorem c7_witness :
    Filter.matchesB { prefix_opt := some "logs/" } "logs/a.txt" [] 0 = true
    ∧ Filter.matchesB { prefix_opt := some "logs/" } "other/a.txt" [] 0 = false
    ∧ Filter.matchesB { tags := [("k", "v")] } "x" [("k", "w")] 0 = false
    ∧ Filter.matchesB { tags := [("k", "v")] } "x" [] 0 = false
    ∧ Filter.matchesB {} "anything" [("a", "b")] 123 = true := by
  refine ⟨by decide, by decide, by decide, by decide, ?_⟩
  exact (c7_filter_matches_iff {} "anything" [("a", "b")] 123).2 (by decide)

/-- Helper for C8: a configuration containing a rule with no action never
validates, whatever ids have been seen so far. -/
theorem validateRules_error_of_no_action (rules : List LifecycleRule)
    (seen : List String) (h : ∃ r ∈ rules, r.has_any_action = false) :
    ∃ e, validateRules seen rules = Except.error e := by
  induction rules generalizing seen with
  | nil => simp at h
  | cons r rest ih =>
    obtain ⟨r0, hmem, hr0⟩ := h
    by_cases h1 : r.id ∈ seen
    · exact ⟨.DuplicateRuleId r.id, by simp [validateRules, h1]⟩
    · by_cases h2 : 255 < r.id.utf8ByteSize
      · exact ⟨.RuleIdTooLong r.id, by simp [validateRules, h1, h2]⟩
      · rcases List.mem_cons.mp hmem with heq | hmem'
        · subst heq
          exact ⟨.NoActionsInRule r0.id, by simp [validateRules, h1, h2, hr0]⟩
        · by_cases h3 : r.has_any_action
          · obtain ⟨e, he⟩ := ih (r.id :: seen) ⟨r0, hmem', hr0⟩
            exact ⟨e, by simp [validateRules, h1, h2, h3, he]⟩
          · exact ⟨.NoActionsInRule r.id, by simp [validateRules, h1, h2, h3]⟩

/-- C8: a rule in which no action field is set fails rule-level validation
and makes any configuration containing it fail configuration-level
validation, regardless of the other fields; and re-validating a valid
configuration succeeds again (validation is a pure function of the
configuration). -/
theorem c8_rule_without_action_invalid :
    (∀ r : LifecycleRule, r.has_any_action = false →
        (∃ e, r.validate = Except.error e)
        ∧ (∀ c : LifecycleConfiguration, r ∈ c.rules →
            ∃ e, c.validate = Except.error e))
    ∧ (∀ c : LifecycleConfiguration,
        c.validate = Except.ok () → c.validate = Except.ok ()) := by
  refine ⟨fun r hr => ⟨?_, fun c hm =>
    validateRules_error_of_no_action c.rules [] ⟨r, hm, hr⟩⟩, fun _ h => h⟩
  have hd1 : r.expiration_days = none := by
    cases h : r.expiration_days with
    | none => rfl
    | some d => simp [LifecycleRule.has_any_action, h] at hr
  have hd2 : r.expiration_date = none := by
    cases h : r.expiration_date with
    | none => rfl
    | some d => simp [LifecycleRule.has_any_action, h] at hr
  have ht1 : r.transition_days = none := by
    cases h : r.transition_days with
    | none => rfl
    | some d => simp [LifecycleRule.has_any_action, h] at hr
  have ht2 : r.transition_date = none := by
    cases h : r.transition_date with
    | none => rfl
    | some d => simp [LifecycleRule.has_any_action, h] at hr
  by_cases h1 : r.id.isEmpty
  · exact ⟨.EmptyRuleId, by simp [LifecycleRule.validate, h1]⟩
  · by_cases h2 : 255 < r.id.utf8ByteSize
    · exact ⟨.RuleIdTooLong r.id, by simp [LifecycleRule.validate, h1, h2]⟩
    · exact ⟨.NoActionsInRule r.id,
        by simp [LifecycleRule.validate, h1, h2, hd1, hd2, ht1, ht2, hr]⟩

/-- C8 witness: a concrete enabled, prefix-filtered rule with no action
fails both validation levels. -/
theorem c8_witness :
    ({ id := "r-empty", status := .Enabled,
       filter := { prefix_opt := some "x/" } } : LifecycleRule).validate
        ≠ Except.ok ()
    ∧ ({ bucket := "b",
         rules := [{ id := "r-empty", status := .Enabled,
                     filter := { prefix_opt := some "x/" } }] } :
        LifecycleConfiguration).validate ≠ Except.ok () := by
  have h := c8_rule_without_action_invalid.1
    { id := "r-empty", status := .Enabled, filter := { prefix_opt := some "x/" } }
    (by decide)
  obtain ⟨⟨e1, he1⟩, h2⟩ := h
  obtain ⟨e2, he2⟩ := h2
    { bucket := "b",
      rules := [{ id := "r-empty", status := .Enabled,
                  filter := { prefix_opt := some "x/" } }] } (by simp)
  refine ⟨by simp [he1], by simp [he2]⟩

/-! ## Proofs: lifecycle evaluation (claims C4, C5, C10) -/

theorem mem_evalRule {rule : LifecycleRule} {req : EvaluateLifecycleRequest}
    {now : Nat} {a : ApplicableAction} (h : a ∈ evalRule rule req now) :
    a ∈ expiration_days_actions rule req now
    ∨ a ∈ expiration_date_actions rule now
    ∨ a ∈ transition_actions rule req now
    ∨ a ∈ del_marker_actions rule req now
    ∨ a ∈ noncurrent_expiration_actions rule req now
    ∨ a ∈ noncurrent_transition_actions rule req now
    ∨ a ∈ abort_multipart_actions rule := by
  unfold evalRule at h
  split at h
  · simp at h
  · split at h
    · simp at h
    · simpa [List.mem_append, or_assoc] using h

theorem mem_expiration_days_actions {rule : LifecycleRule}
    {req : EvaluateLifecycleRequest} {now : Nat} {a : ApplicableAction}
    (h : a ∈ expiration_days_actions rule req now) :
    ∃ d, rule.expiration_days = some d ∧ should_expire_by_days req d now = true
      ∧ a.action = .Expiration (some d) none := by
  cases hx : rule.expiration_days with
  | none => simp [expiration_days_actions, hx] at h
  | some d =>
    by_cases hc : should_expire_by_days req d now = true
    · simp [expiration_days_actions, hx, hc] at h
      exact ⟨d, rfl, hc, by simp [h]⟩
    · simp [expiration_days_actions, hx, Bool.eq_false_iff.mpr hc] at h

theorem mem_expiration_date_actions {rule : LifecycleRule} {now : Nat}
    {a : ApplicableAction} (h : a ∈ expiration_date_actions rule now) :
    ∃ date, rule.expiration_date = some date ∧ should_expire_by_date date now = true
      ∧ a.action = .Expiration none (some date) := by
  cases hx : rule.expiration_date with
  | none => simp [expiration_date_actions, hx] at h
  | some date =>
    by_cases hc : should_expire_by_date date now = true
    · simp [expiration_date_actions, hx, hc] at h
      exact ⟨date, rfl, hc, by simp [h]⟩
    · simp [expiration_date_actions, hx, Bool.eq_false_iff.mpr hc] at h

theorem mem_transition_actions {rule : LifecycleRule}
    {req : EvaluateLifecycleRequest} {now : Nat} {a : ApplicableAction}
    (h : a ∈ transition_actions rule req now) :
    ∃ d sc, rule.transition_days = some d ∧ rule.transition_storage_class = some sc
      ∧ should_transition_by_days req d now = true
      ∧ a.action = .Transition (some d) none sc := by
  cases hx : rule.transition_days with
  | none => simp [transition_actions, hx] at h
  | some d =>
    cases hy : rule.transition_storage_class with
    | none => simp [transition_actions, hx, hy] at h
    | some sc =>
      by_cases hc : should_transition_by_days req d now = true
      · simp [transition_actions, hx, hy, hc] at h
        exact ⟨d, sc, rfl, rfl, hc, by simp [h]⟩
      · simp [transition_actions, hx, hy, Bool.eq_false_iff.mpr hc] at h

theorem mem_del_marker_actions {rule : LifecycleRule}
    {req : EvaluateLifecycleRequest} {now : Nat} {a : ApplicableAction}
    (h : a ∈ del_marker_actions rule req now) :
    ∃ d, a.action = .ExpireDeleteMarker d := by
  cases hx : rule.del_marker_expiration_days with
  | none => simp [del_marker_actions, hx] at h
  | some d =>
    by_cases hc : (req.is_delete_marker && should_expire_by_days req d now) = true
    · simp [del_marker_actions, hx, hc] at h
      exact ⟨d, by simp [h]⟩
    · simp [del_marker_actions, hx, Bool.eq_false_iff.mpr hc] at h

theorem mem_noncurrent_expiration_actions {rule : LifecycleRule}
    {req : EvaluateLifecycleRequest} {now : Nat} {a : ApplicableAction}
    (h : a ∈ noncurrent_expiration_actions rule req now) :
    ∃ d, a.action = .NonCurrentVersionExpiration d := by
  cases hx : rule.noncurrent_version_expiration_noncurrent_days with
  | none => simp [noncurrent_expiration_actions, hx] at h
  | some d =>
    by_cases hc : (!req.is_current_version && should_expire_by_days req d now) = true
    · simp [noncurrent_expiration_actions, hx, hc] at h
      exact ⟨d, by simp [h]⟩
    · simp [noncurrent_expiration_actions, hx, Bool.eq_false_iff.mpr hc] at h

theorem mem_noncurrent_transition_actions {rule : LifecycleRule}
    {req : EvaluateLifecycleRequest} {now : Nat} {a : ApplicableAction}
    (h : a ∈ noncurrent_transition_actions rule req now) :
    ∃ d sc, a.action = .NonCurrentVersionTransition d sc := by
  cases hx : rule.noncurrent_version_transition_noncurrent_days with
  | none => simp [noncurrent_transition_actions, hx] at h
  | some d =>
    cases hy : rule.noncurrent_version_transition_storage_class with
    | none => simp [noncurrent_transition_actions, hx, hy] at h
    | some sc =>
      by_cases hc : (!req.is_current_version && should_transition_by_days req d now) = true
      · simp [noncurrent_transition_actions, hx, hy, hc] at h
        exact ⟨d, sc, by simp [h]⟩
      · simp [noncurrent_transition_actions, hx, hy, Bool.eq_false_iff.mpr hc] at h

theorem mem_abort_multipart_actions {rule : LifecycleRule} {a : ApplicableAction}
    (h : a ∈ abort_multipart_actions rule) :
    ∃ d, a.action = .AbortIncompleteMultipartUpload d := by
  cases hx : rule.abort_incomplete_multipart_upload_days_after_initiation with
  | none => simp [abort_multipart_actions, hx] at h
  | some d =>
    simp [abort_multipart_actions, hx] at h
    exact ⟨d, by simp [h]⟩

/-- C5 counterexample: a valid, enabled rule whose only action is a
Glacier transition at date 10 — with `now = 1000 ≥ 10` and an
everything-matching filter — produces no action at all, neither through
`evalRule` nor through the full `evaluate_object_lifecycle`. -/
theorem c5_counterexample :
    transitionDateRule.validate = Except.ok ()
    ∧ transitionDateRule.status = RuleStatus.Enabled
    ∧ transitionDateRule.filter.matchesB reqAt0.key reqAt0.object_tags 0 = true
    ∧ transitionDateRule.transition_date = some 10
    ∧ should_expire_by_date 10 1000 = true
    ∧ evalRule transitionDateRule reqAt0 1000 = []
    ∧ evaluate_object_lifecycle [("logs", ⟨"logs", [transitionDateRule]⟩)]
        reqAt0 1000 = Except.ok [] := by
  refine ⟨by decide, rfl, by decide, rfl, by decide, by decide, by decide⟩

/-- C5 (amended): `transition_date` is never consulted during evaluation: a
rule without `transition_days` emits no Transition action whatever its
transition date; Transition actions arise exactly from `transition_days`
(with a storage class set) when `now − created_at ≥ days·24h`. -/
theorem c5_transition_only_by_days (rule : LifecycleRule)
    (req : EvaluateLifecycleRequest) (now : Nat) :
    (rule.transition_days = none →
      (evalRule rule req now).all (fun a => !isTransitionAction a.action) = true)
    ∧ (∀ days storage_class,
        rule.transition_days = some days →
        rule.transition_storage_class = some storage_class →
        rule.status = RuleStatus.Enabled →
        rule.filter.matchesB req.key req.object_tags 0 = true →
        ((evalRule rule req now).any (fun a => isTransitionAction a.action) = true
          ↔ days * 86400 ≤ now - req.object_created_at)) := by
  constructor
  · intro htd
    rw [List.all_eq_true]
    intro a ha
    rcases mem_evalRule ha with h | h | h | h | h | h | h
    · obtain ⟨d, _, _, hact⟩ := mem_expiration_days_actions h
      simp [hact, isTransitionAction]
    · obtain ⟨date, _, _, hact⟩ := mem_expiration_date_actions h
      simp [hact, isTransitionAction]
    · obtain ⟨d, sc, hd, _, _, _⟩ := mem_transition_actions h
      rw [htd] at hd
      cases hd
    · obtain ⟨d, hact⟩ := mem_del_marker_actions h
      simp [hact, isTransitionAction]
    · obtain ⟨d, hact⟩ := mem_noncurrent_expiration_actions h
      simp [hact, isTransitionAction]
    · obtain ⟨d, sc, hact⟩ := mem_noncurrent_transition_actions h
      simp [hact, isTransitionAction]
    · obtain ⟨d, hact⟩ := mem_abort_multipart_actions h
      simp [hact, isTransitionAction]
  · intro days storage_class hdays hsc hst hm
    constructor
    · intro hany
      obtain ⟨a, ha, hta⟩ := List.any_eq_true.mp hany
      rcases mem_evalRule ha with h | h | h | h | h | h | h
      · obtain ⟨d, _, _, hact⟩ := mem_expiration_days_actions h
        simp [hact, isTransitionAction] at hta
      · obtain ⟨date, _, _, hact⟩ := mem_expiration_date_actions h
        simp [hact, isTransitionAction] at hta
      · obtain ⟨d, sc, hd, _, hcond, _⟩ := mem_transition_actions h
        rw [hdays] at hd
        cases hd
        simpa [should_transition_by_days, should_expire_by_days] using hcond
      · obtain ⟨d, hact⟩ := mem_del_marker_actions h
        simp [hact, isTransitionAction] at hta
      · obtain ⟨d, hact⟩ := mem_noncurrent_expiration_actions h
        simp [hact, isTransitionAction] at hta
      · obtain ⟨d, sc, hact⟩ := mem_noncurrent_transition_actions h
        simp [hact, isTransitionAction] at hta
      · obtain ⟨d, hact⟩ := mem_abort_multipart_actions h
        simp [hact, isTransitionAction] at hta
    · intro hc
      have hseg : (transition_actions rule req now).any
          (fun a => isTransitionAction a.action) = true := by
        simp [transition_actions, hdays, hsc, should_transition_by_days,
          should_expire_by_days, hc, isTransitionAction]
      have hml : rule.matchesB req.key req.object_tags 0 = true := by
        simp [LifecycleRule.matchesB, hst, hm]
      simp [evalRule, hst, hml, List.any_append, hseg]

/-- C5 witness: the amended theorem at a transition-date-only rule
(no Transition action at all) and at a 30-day transition rule on a
31-day-old object (a Transition action fires). -/
theorem c5_witness :
    (evalRule transitionDateRule reqAt0 (10 * 86400)).all
      (fun a => !isTransitionAction a.action) = true
    ∧ (evalRule transitionDaysRule30 reqAt0 (31 * 86400)).any
        (fun a => isTransitionAction a.action) = true := by
  refine ⟨(c5_transition_only_by_days transitionDateRule reqAt0 (10 * 86400)).1 rfl, ?_⟩
  exact ((c5_transition_only_by_days transitionDaysRule30 reqAt0 (31 * 86400)).2
    30 .Glacier rfl rfl rfl (by decide)).mpr (by decide)

/-- C4: for an enabled rule whose filter matches (at the evaluation's object
size 0) with `expiration_days = d` and no expiration date, evaluation emits
an Expiration action iff `now − created_at ≥ d·24h` (ages truncate at 0 for
future objects). -/
theorem c4_expiration_days_iff (rule : LifecycleRule)
    (req : EvaluateLifecycleRequest) (now d : Nat)
    (h1 : rule.status = RuleStatus.Enabled)
    (h2 : rule.filter.matchesB req.key req.object_tags 0 = true)
    (h3 : rule.expiration_days = some d)
    (h4 : rule.expiration_date = none) :
    ((evalRule rule req now).any (fun a => isExpirationAction a.action) = true
      ↔ d * 86400 ≤ now - req.object_created_at) := by
  constructor
  · intro hany
    obtain ⟨a, ha, hta⟩ := List.any_eq_true.mp hany
    rcases mem_evalRule ha with h | h | h | h | h | h | h
    · obtain ⟨d', hd', hcond, hact⟩ := mem_expiration_days_actions h
      rw [h3] at hd'
      cases hd'
      simpa [should_expire_by_days] using hcond
    · obtain ⟨date, hdate, _, _⟩ := mem_expiration_date_actions h
      rw [h4] at hdate
      cases hdate
    · obtain ⟨d', sc, _, _, _, hact⟩ := mem_transition_actions h
      simp [hact, isExpirationAction] at hta
    · obtain ⟨d', hact⟩ := mem_del_marker_actions h
      simp [hact, isExpirationAction] at hta
    · obtain ⟨d', hact⟩ := mem_noncurrent_expiration_actions h
      simp [hact, isExpirationAction] at hta
    · obtain ⟨d', sc, hact⟩ := mem_noncurrent_transition_actions h
      simp [hact, isExpirationAction] at hta
    · obtain ⟨d', hact⟩ := mem_abort_multipart_actions h
      simp [hact, isExpirationAction] at hta
  · intro hc
    have hseg : (expiration_days_actions rule req now).any
        (fun a => isExpirationAction a.action) = true := by
      simp [expiration_days_actions, h3, should_expire_by_days, hc, isExpirationAction]
    have hml : rule.matchesB req.key req.object_tags 0 = true := by
      simp [LifecycleRule.matchesB, h1, h2]
    simp [evalRule, h1, hml, List.any_append, hseg]

/-- C4 witness: under `expiration_days = 30`, an object created 31 days
before `now` yields exactly one Expiration action (also through the full
`evaluate_object_lifecycle`), and one created 29 days before yields none. -/
theorem c4_witness :
    (evalRule expireRule30 reqAt0 (31 * 86400)).any
      (fun a => isExpirationAction a.action) = true
    ∧ (evalRule expireRule30 reqAt0 (31 * 86400)).countP
        (fun a => isExpirationAction a.action) = 1
    ∧ evalRule expireRule30 reqAt0 (29 * 86400) = []
    ∧ evaluate_object_lifecycle [("logs", ⟨"logs", [expireRule30]⟩)] reqAt0 (31 * 86400)
        = Except.ok [⟨"r1", .Expiration (some 30) none, "Object is 30 days old"⟩]
    ∧ evaluate_object_lifecycle [("logs", ⟨"logs", [expireRule30]⟩)] reqAt0 (29 * 86400)
        = Except.ok [] := by
  refine ⟨?_, by decide, by decide, by decide, by decide⟩
  exact (c4_expiration_days_iff expireRule30 reqAt0 (31 * 86400) 30
    rfl (by decide) rfl rfl).mpr (by decide)

/-- C10: evaluation always matches with object size 0, so a rule whose
filter sets `object_size_greater_than` never produces any action, and an
`object_size_less_than` bound greater than 0 never influences matching
during evaluation. -/
theorem c10_size_zero_evaluation (rule : LifecycleRule)
    (req : EvaluateLifecycleRequest) (now : Nat) :
    (∀ n, rule.filter.object_size_greater_than = some n → evalRule rule req now = [])
    ∧ (∀ m, rule.filter.object_size_less_than = some m → 0 < m →
        rule.filter.matchesB req.key req.object_tags 0
          = (Filter.mk rule.filter.prefix_opt rule.filter.tags
              rule.filter.object_size_greater_than none).matchesB
              req.key req.object_tags 0) := by
  constructor
  · intro n hn
    have hm : rule.matchesB req.key req.object_tags 0 = false := by
      unfold LifecycleRule.matchesB
      split
      · rfl
      · simp [Filter.matchesB, hn]
    unfold evalRule
    simp [hm]
  · intro m hm h0
    simp [Filter.matchesB, hm, h0]

/-- C10 witness: a 0-day-expiration rule matching everything except for a
size floor yields nothing even on an old object, for floors 5 and 0 alike;
a size ceiling of 1 is transparent at evaluation size 0. -/
theorem c10_witness :
    evalRule sizeFloorRule5 reqAt0 (31 * 86400) = []
    ∧ evalRule sizeFloorRule0 reqAt0 (31 * 86400) = []
    ∧ Filter.matchesB { object_size_less_than := some 1 } "x" [] 0 = true := by
  refine ⟨(c10_size_zero_evaluation _ reqAt0 (31 * 86400)).1 5 rfl,
    (c10_size_zero_evaluation _ reqAt0 (31 * 86400)).1 0 rfl, by decide⟩

/-! ## Proofs: versioned path encoding (claim C9) -/

/-- C9 counterexample: the encoding `{key}.v_{version_id}` is not
collision-free — the valid pairs `("a", "b.v_c")` and `("a.v_b", "c")` are
distinct yet encode to the same path, and that path is itself a valid
object key. -/
theorem c9_counterexample :
    object_key_valid "a" = true ∧ version_id_valid "b.v_c" = true
    ∧ object_key_valid "a.v_b" = true ∧ version_id_valid "c" = true
    ∧ (("a", "b.v_c") ≠ (("a.v_b" : String), ("c" : String)))
    ∧ versioned_path "a" "b.v_c" = versioned_path "a.v_b" "c"
    ∧ object_key_valid (versioned_path "a" "b.v_c") = true := by
  refine ⟨by decide, by decide, by decide, by decide, by decide, by decide, by decide⟩

/-- C9 (amended): the encoding is the deterministic function
`{key}.v_{version_id}` and is injective in the version id for a fixed key,
but distinct (key, version) pairs can collide and an encoded path can be a
valid object key (see the counterexample). -/
theorem c9_encoding_deterministic (path version_id v2 : String) :
    versioned_path path version_id = path ++ ".v_" ++ version_id
    ∧ (versioned_path path version_id = versioned_path path v2 → version_id = v2) := by
  refine ⟨rfl, fun h => ?_⟩
  unfold versioned_path at h
  have hd := congrArg String.data h
  simp only [String.data_append] at hd
  have : version_id.data = v2.data := by
    have := hd
    rwa [List.append_assoc, List.append_assoc, List.append_right_inj,
      List.append_right_inj] at this
  cases version_id
  cases v2
  exact congrArg String.mk this

/-- C9 witness: the encoding at concrete inputs, and fixed-key injectivity
separating two concrete version ids. -/
theorem c9_witness :
    versioned_path "k" "v7" = "k.v_v7"
    ∧ versioned_path "k" "v1" ≠ versioned_path "k" "v2" := by
  refine ⟨by decide, fun h => ?_⟩
  have := (c9_encoding_deterministic "k" "v1" "v2").2 h
  exact absurd this (by decide)

/-! ## Proofs: bucket lifecycle processing (claim C6) -/

/-- The object loop processes every object and aggregates exactly the
per-object errors, in order. -/
theorem processObjects_spec
    (evaluateF : ObjectInfo → Except String (List ApplicableAction))
    (applyF : String → List ApplicableAction → Except String LifecycleActionResults)
    (objects : List ObjectInfo) :
    (processObjects evaluateF applyF objects).1 = objects.length
    ∧ (processObjects evaluateF applyF objects).2.2.2
      = objects.flatMap (fun oi => (processOne evaluateF applyF oi).2.2) := by
  induction objects with
  | nil => simp [processObjects]
  | cons o rest ih =>
    refine ⟨?_, ?_⟩
    · simp [processObjects, ih.1]
    · simp [processObjects, ih.2]

/-- C6: per-object failure isolation in `process_bucket_lifecycle`.  With a
successful listing, every object is counted in `objects_processed` and the
error list is exactly the concatenation of each object's own errors — so one
object's failure never suppresses the others; a listing failure aborts the
pass with `objects_processed = 0` and exactly one recorded error.  In the
3-object scenario where evaluation of object #2 fails, the pass reports
`objects_processed = 3` and exactly the one evaluation error for `b/o2`. -/
theorem c6_error_isolation :
    (∀ bucket objects evaluateF applyF,
      (process_bucket_lifecycle bucket (Except.ok objects) evaluateF applyF).objects_processed
          = objects.length
      ∧ (process_bucket_lifecycle bucket (Except.ok objects) evaluateF applyF).errors
          = objects.flatMap (fun oi => (processOne evaluateF applyF oi).2.2))
    ∧ (∀ bucket msg evaluateF applyF,
        (process_bucket_lifecycle bucket (Except.error msg) evaluateF applyF).objects_processed
            = 0
        ∧ (process_bucket_lifecycle bucket (Except.error msg) evaluateF applyF).errors.length
            = 1)
    ∧ (process_bucket_lifecycle "b" (Except.ok threeObjects) probeEvalF
        probeApplyF).objects_processed = 3
    ∧ (process_bucket_lifecycle "b" (Except.ok threeObjects) probeEvalF
        probeApplyF).errors = [⟨"b/o2", "evaluation", "evaluation failed"⟩] := by
  refine ⟨fun bucket objects evaluateF applyF => ?_, fun bucket msg evaluateF applyF =>
    ⟨rfl, rfl⟩, by decide, by decide⟩
  exact ⟨(processObjects_spec evaluateF applyF objects).1,
    (processObjects_spec evaluateF applyF objects).2⟩

/-! ## Proofs: version-less reads of a tombstoned latest version (claim C3) -/

/-- C3 counterexample: after `put(k,d,v1); put(k,d2,v2)` and the service's
`delete_version(k, v2)`, the latest pointer still designates the tombstoned
`v2`, and a version-less `get_object` fails with `VersionNotFound`, not
`ObjectNotFound`. -/
theorem c3_counterexample :
    (service_delete_version demo2 "data/k" "v2").toOption = some demo2tomb
    ∧ get_latest_version_id demo2tomb.repo "data/k" = some "v2"
    ∧ (lookupS ((lookupS demo2tomb.repo.objects "data/k").getD []) "v2").map
        (fun sv => sv.deleted) = some true
    ∧ get_object demo2tomb "data/k" none
        = Except.error (StorageError.VersionNotFound "data/k" "v2")
    ∧ isObjectNotFoundErr (get_object demo2tomb "data/k" none) = false := by
  refine ⟨by decide, by decide, by decide, by decide, by decide⟩

/-- C3 (amended): when the version designated by the latest pointer is
tombstoned, a version-less `get_object` fails with the `VersionNotFound`
error kind (the pointer still resolves, but the metadata lookup filters the
tombstoned version out); `ObjectNotFound` arises only when the key has no
latest pointer at all. -/
theorem c3_tombstoned_latest_reads_version_not_found (s : SysState) (k v : String)
    (vs : List (String × StoredVersion)) (sv : StoredVersion)
    (hl : lookupS s.repo.latest_versions k = some v)
    (ho : lookupS s.repo.objects k = some vs)
    (hv : lookupS vs v = some sv)
    (hd : sv.deleted = true) :
    get_object s k none = Except.error (StorageError.VersionNotFound k v) := by
  unfold get_object get_latest_version_id get_object_metadata
  simp [hl, ho, hv, hd]

/-- C3 witness: the amended theorem applied to the concrete tombstoned
state. -/
theorem c3_witness :
    get_object demo2tomb "data/k" none
      = Except.error (StorageError.VersionNotFound "data/k" "v2") :=
  c3_tombstoned_latest_reads_version_not_found demo2tomb "data/k" "v2"
    ((lookupS demo2tomb.repo.objects "data/k").getD [])
    ((lookupS ((lookupS demo2tomb.repo.objects "data/k").getD []) "v2").getD
      ⟨⟨none, 0, none, 0, []⟩, false⟩)
    (by decide) (by decide) (by decide) (by decide)

/-! ## Proofs: hard version deletion (claim C2) -/

theorem maxByKeyLast_spec {α : Type} (f : α → Nat) (l : List α) (acc : Option α)
    (x : α) (h : maxByKeyLast f acc l = some x) :
    (x ∈ l ∨ acc = some x) ∧ (∀ y ∈ l, f y ≤ f x) ∧ (∀ y, acc = some y → f y ≤ f x) := by
  induction l generalizing acc with
  | nil =>
    simp only [maxByKeyLast] at h
    refine ⟨Or.inr h, by simp, fun y hy => ?_⟩
    rw [hy] at h
    cases h
    exact le_refl _
  | cons a t ih =>
    cases acc with
    | none =>
      obtain ⟨h1, h2, h3⟩ := ih (some a) h
      refine ⟨?_, ?_, fun y hy => by cases hy⟩
      · rcases h1 with h1 | h1
        · exact Or.inl (List.mem_cons_of_mem _ h1)
        · exact Or.inl (by simp [Option.some_inj.mp h1])
      · intro y hy
        rcases List.mem_cons.mp hy with rfl | hy'
        · exact h3 y rfl
        · exact h2 y hy'
    | some b =>
      by_cases hba : f b ≤ f a
      · simp only [maxByKeyLast, if_pos hba] at h
        obtain ⟨h1, h2, h3⟩ := ih (some a) h
        refine ⟨?_, ?_, ?_⟩
        · rcases h1 with h1 | h1
          · exact Or.inl (List.mem_cons_of_mem _ h1)
          · exact Or.inl (by simp [Option.some_inj.mp h1])
        · intro y hy
          rcases List.mem_cons.mp hy with rfl | hy'
          · exact h3 y rfl
          · exact h2 y hy'
        · intro y hy
          cases hy
          exact le_trans hba (h3 a rfl)
      · simp only [maxByKeyLast, if_neg hba] at h
        obtain ⟨h1, h2, h3⟩ := ih (some b) h
        refine ⟨?_, ?_, ?_⟩
        · rcases h1 with h1 | h1
          · exact Or.inl (List.mem_cons_of_mem _ h1)
          · exact Or.inr h1
        · intro y hy
          rcases List.mem_cons.mp hy with rfl | hy'
          · exact le_trans (le_of_lt (lt_of_not_le hba)) (h3 b rfl)
          · exact h2 y hy'
        · exact h3
    
theorem maxByKeyLast_acc_isSome {α : Type} (f : α → Nat) (t : List α) (b : α) :
    ∃ x, maxByKeyLast f (some b) t = some x := by
  induction t generalizing b with
  | nil => exact ⟨b, rfl⟩
  | cons a t ih =>
    simp only [maxByKeyLast]
    split
    · exact ih a
    · exact ih b

theorem maxByKeyLast_of_ne_nil {α : Type} (f : α → Nat) (l : List α) (hne : l ≠ []) :
    ∃ x, maxByKeyLast f none l = some x ∧ x ∈ l ∧ ∀ y ∈ l, f y ≤ f x := by
  cases l with
  | nil => exact absurd rfl hne
  | cons a t =>
    obtain ⟨x, hx⟩ := maxByKeyLast_acc_isSome f t a
    have hx' : maxByKeyLast f none (a :: t) = some x := hx
    obtain ⟨h1, h2, h3⟩ := maxByKeyLast_spec f (a :: t) none x hx'
    rcases h1 with h1 | h1
    · exact ⟨x, hx', h1, h2⟩
    · cases h1

/-- C2: a successful hard `delete_version` (metadata removal through
`delete_version_metadata` plus physical removal of the versioned bytes)
removes the version's bytes and history entry; if the key's entry becomes
empty the key disappears from the repository, the latest pointer and
`list_versions`; and if the deleted version was the latest, the pointer is
re-aimed at the remaining non-deleted version with the strictly greatest
creation (`last_modified`) time. -/
theorem c2_hard_delete_version (s : SysState) (key vid : String) (s' : SysState)
    (h : hard_delete_version s key vid = Except.ok s')
    (hnd : NodupKeys ((lookupS s.repo.objects key).getD [])) :
    lookupS s'.store (key, vid) = none
    ∧ (∀ vs', lookupS s'.repo.objects key = some vs' → lookupS vs' vid = none)
    ∧ (∀ vs, lookupS s.repo.objects key = some vs → eraseS vs vid = [] →
        lookupS s'.repo.objects key = none
        ∧ lookupS s'.repo.latest_versions key = none
        ∧ ∀ iter, IterAdmissible s'.repo key iter →
            list_object_versions s'.repo key iter = [])
    ∧ (∀ vs w sw, lookupS s.repo.objects key = some vs →
        lookupS s.repo.latest_versions key = some vid →
        (w, sw) ∈ eraseS vs vid → sw.deleted = false →
        (∀ p ∈ eraseS vs vid, p.2.deleted = false → p.1 ≠ w →
          p.2.metadata.last_modified < sw.metadata.last_modified) →
        lookupS s'.repo.latest_versions key = some w) := by
  unfold hard_delete_version at h
  cases hdel : delete_version_metadata s.repo key vid with
  | error e => rw [hdel] at h; cases h
  | ok repo' =>
    rw [hdel] at h
    cases hst : lookupS s.store (key, vid) with
    | none => rw [hst] at h; cases h
    | some bytes =>
      rw [hst] at h
      cases h
      simp only [delete_version_metadata] at hdel
      cases hobj : lookupS s.repo.objects key with
      | none => simp only [hobj] at hdel; cases hdel
      | some versions =>
        simp only [hobj] at hdel
        cases hver : lookupS versions vid with
        | none => simp only [hver] at hdel; cases hdel
        | some sv0 =>
          simp only [hver] at hdel
          rw [hobj] at hnd
          simp only [Option.getD_some] at hnd
          refine ⟨lookupS_eraseS_self _ _, ?_, ?_, ?_⟩
          · -- history entry removed
            intro vs' hvs'
            by_cases hemp : (eraseS versions vid).isEmpty
            · rw [if_pos hemp] at hdel
              cases hdel
              rw [lookupS_eraseS_self] at hvs'
              cases hvs'
            · rw [if_neg hemp] at hdel
              cases hdel
              rw [lookupS_insertS_self] at hvs'
              cases hvs'
              exact lookupS_eraseS_self _ _
          · -- pruning
            intro vs hvs he
            cases hvs
            have hemp : (eraseS versions vid).isEmpty := by simp [he]
            rw [if_pos hemp] at hdel
            cases hdel
            refine ⟨lookupS_eraseS_self _ _, lookupS_eraseS_self _ _, ?_⟩
            intro iter hiter
            have hnil : iter = [] := by
              apply List.Perm.eq_nil
              simpa [IterAdmissible, lookupS_eraseS_self] using hiter
            simp [list_object_versions, hnil]
          · -- promotion
            intro vs w sw hvs hlat hw hwd hmax
            cases hvs
            have hndE : NodupKeys (eraseS versions vid) := nodupKeys_eraseS _ hnd
            have hemp : ¬ (eraseS versions vid).isEmpty := by
              intro hcon
              rw [List.isEmpty_iff] at hcon
              rw [hcon] at hw
              cases hw
            rw [if_neg hemp] at hdel
            cases hdel
            have hbeq : (lookupS s.repo.latest_versions key == some vid) = true := by
              simp [hlat]
            rw [if_pos hbeq]
            -- the filter keeps (w, sw)
            have hwf : (w, sw) ∈ (eraseS versions vid).filter (fun p => !p.2.deleted) := by
              rw [List.mem_filter]
              exact ⟨hw, by simp [hwd]⟩
            have hfne : (eraseS versions vid).filter (fun p => !p.2.deleted) ≠ [] :=
              List.ne_nil_of_mem hwf
            obtain ⟨x, hx, hxmem, hxmax⟩ :=
              maxByKeyLast_of_ne_nil (fun p => p.2.metadata.last_modified) _ hfne
            have hxE : x ∈ eraseS versions vid ∧ x.2.deleted = false := by
              have := List.mem_filter.mp hxmem
              exact ⟨this.1, by simpa using this.2⟩
            have hxw : x = (w, sw) := by
              by_cases hxe : x.1 = w
              · have hlw : lookupS (eraseS versions vid) w = some sw := mem_lookupS hndE hw
                have hlx : lookupS (eraseS versions vid) x.1 = some x.2 := mem_lookupS hndE
                  (by cases x; exact hxE.1)
                rw [hxe] at hlx
                rw [hlw] at hlx
                cases x
                simp only at hxe
                subst hxe
                simp [Option.some_inj.mp hlx]
              · have hlt := hmax x hxE.1 hxE.2 hxe
                have hge := hxmax (w, sw) hwf
                exact absurd hge (not_le_of_lt (by exact hlt))
            rw [hxw] at hx
            rw [hx]
            simp [lookupS_insertS_self]

/-- C2 witness: deleting the latest of two versions promotes the
next-newest remaining version (via the theorem) and removes the bytes;
deleting a key's only version prunes the key from the version listing
entirely. -/
theorem c2_witness :
    hard_delete_version demo2 "data/k" "v2" = Except.ok demo2del
    ∧ lookupS demo2del.repo.latest_versions "data/k" = some "v1"
    ∧ lookupS demo2del.store ("data/k", "v2") = none
    ∧ (hard_delete_version demo1 "data/k" "v1").toOption.map
        (fun s => (lookupS s.repo.objects "data/k",
          lookupS s.repo.latest_versions "data/k")) = some (none, none)
    ∧ IterAdmissible demo1del.repo "data/k" []
    ∧ list_object_versions demo1del.repo "data/k" [] = [] := by
  refine ⟨by decide, ?_, ?_, by decide, by decide, by decide⟩
  · exact (c2_hard_delete_version demo2 "data/k" "v2" demo2del (by decide)
      (by decide)).2.2.2 ((lookupS demo2.repo.objects "data/k").getD []) "v1"
      ((lookupS ((lookupS demo2.repo.objects "data/k").getD []) "v1").getD
        ⟨⟨none, 0, none, 0, []⟩, false⟩)
      (by decide) (by decide) (by decide) (by decide) (by decide)
  · exact (c2_hard_delete_version demo2 "data/k" "v2" demo2del (by decide)
      (by decide)).1

/-! ## Proofs: the latest-version invariant (claim C1) -/

theorem insertS_ne_nil {κ α : Type} [DecidableEq κ] (l : List (κ × α)) (k : κ) (v : α) :
    insertS l k v ≠ [] := by
  cases l with
  | nil => simp [insertS]
  | cons p t =>
    obtain ⟨a, b⟩ := p
    by_cases h : a = k <;> simp [insertS, h]

theorem lastPutData_append_put (tr : List Op) (k vid : String) (data : List Nat)
    (ct : Option String) (cm : List (String × String)) (t : Nat) (key version_id : String) :
    lastPutData (tr ++ [Op.put k vid data ct cm t]) key version_id
      = if k = key ∧ vid = version_id then some data
        else lastPutData tr key version_id := by
  simp [lastPutData, List.foldl_append]

theorem lastPutData_append_del (tr : List Op) (k vid key version_id : String) :
    lastPutData (tr ++ [Op.del k vid]) key version_id
      = lastPutData tr key version_id := by
  simp [lastPutData, List.foldl_append]

/-- A decidable bound on all recorded creation times gives `FreshTime`. -/
theorem freshTime_of_below (s : SysState) (t : Nat)
    (h : s.repo.objects.all
      (fun kv => kv.2.all (fun vsv => decide (vsv.2.metadata.last_modified < t))) = true) :
    FreshTime s t := by
  intro k vs v sv h1 h2
  rw [List.all_eq_true] at h
  have h' := h _ (lookupS_mem h1)
  rw [List.all_eq_true] at h'
  simpa using h' _ (lookupS_mem h2)

theorem c1Inv_init : C1Inv [] {} := by
  refine ⟨?_, ?_, ?_, ?_, ?_, ?_, ?_, ?_⟩ <;> intros <;> simp_all [lookupS]

theorem c1Inv_put {tr : List Op} {s : SysState} (k vid : String) (data : List Nat)
    (ct : Option String) (cm : List (String × String)) (t : Nat)
    (hInv : C1Inv tr s) (hf : FreshTime s t) :
    C1Inv (tr ++ [Op.put k vid data ct cm t])
      (create_versioned_object s k data ct cm vid t) := by
  obtain ⟨ind, ne, le, oe, al, lm, dt, sd⟩ := hInv
  set meta : ObjectMetadata :=
    ⟨ct, data.length, some (md5_compute data), t, cm⟩ with hmeta
  have hobjL : ∀ k', lookupS (create_versioned_object s k data ct cm vid t).repo.objects k'
      = if k' = k then some (insertS ((lookupS s.repo.objects k).getD []) vid ⟨meta, false⟩)
        else lookupS s.repo.objects k' := by
    intro k'
    by_cases h : k' = k
    · subst h
      simp [create_versioned_object, save_object_metadata, lookupS_insertS_self]
    · simp [create_versioned_object, save_object_metadata, h,
        lookupS_insertS_ne _ _ _ _ (fun hc => h hc.symm)]
  have hlatL : ∀ k', lookupS (create_versioned_object s k data ct cm vid t).repo.latest_versions k'
      = if k' = k then some vid else lookupS s.repo.latest_versions k' := by
    intro k'
    by_cases h : k' = k
    · subst h
      simp [create_versioned_object, save_object_metadata, lookupS_insertS_self]
    · simp [create_versioned_object, save_object_metadata, h,
        lookupS_insertS_ne _ _ _ _ (fun hc => h hc.symm)]
  have hstoL : ∀ p, lookupS (create_versioned_object s k data ct cm vid t).store p
      = if p = (k, vid) then some data else lookupS s.store p := by
    intro p
    by_cases h : p = (k, vid)
    · subst h
      simp [create_versioned_object, lookupS_insertS_self]
    · simp [create_versioned_object, h, lookupS_insertS_ne _ _ _ _ (fun hc => h hc.symm)]
  have hnd0 : NodupKeys ((lookupS s.repo.objects k).getD []) := by
    cases hob : lookupS s.repo.objects k with
    | none => simp [NodupKeys]
    | some l => simpa using ind k l hob
  refine ⟨?_, ?_, ?_, ?_, ?_, ?_, ?_, ?_⟩
  · -- inner_nodup
    intro k' vs hvs
    rw [hobjL] at hvs
    by_cases h : k' = k
    · rw [if_pos h] at hvs
      cases hvs
      exact nodupKeys_insertS _ _ hnd0
    · rw [if_neg h] at hvs
      exact ind k' vs hvs
  · -- nonempty
    intro k' vs hvs
    rw [hobjL] at hvs
    by_cases h : k' = k
    · rw [if_pos h] at hvs
      cases hvs
      exact insertS_ne_nil _ _ _
    · rw [if_neg h] at hvs
      exact ne k' vs hvs
  · -- latest_exists
    intro k' vs hvs
    rw [hobjL] at hvs
    rw [hlatL]
    by_cases h : k' = k
    · simp [h]
    · rw [if_neg h] at hvs
      simp [h]
      exact le k' vs hvs
  · -- objects_exists
    intro k' v hv
    rw [hlatL] at hv
    rw [hobjL]
    by_cases h : k' = k
    · exact ⟨_, by rw [if_pos h]⟩
    · rw [if_neg h] at hv
      rw [if_neg h]
      exact oe k' v hv
  · -- all_live
    intro k' vs v sv hvs hsv
    rw [hobjL] at hvs
    by_cases h : k' = k
    · rw [if_pos h] at hvs
      cases hvs
      by_cases hv : vid = v
      · subst hv
        rw [lookupS_insertS_self] at hsv
        cases hsv
        rfl
      · rw [lookupS_insertS_ne _ _ _ _ hv] at hsv
        cases hob : lookupS s.repo.objects k with
        | none => rw [hob] at hsv; simp [lookupS] at hsv
        | some l =>
          rw [hob] at hsv
          exact al k l v sv hob (by simpa using hsv)
    · rw [if_neg h] at hvs
      exact al k' vs v sv hvs hsv
  · -- latest_max
    intro k' v hv
    rw [hlatL] at hv
    by_cases h : k' = k
    · rw [if_pos h] at hv
      cases hv
      subst h
      refine ⟨_, ⟨meta, false⟩, by rw [hobjL, if_pos rfl], lookupS_insertS_self _ _ _, ?_⟩
      intro w sw hsw hwv
      rw [lookupS_insertS_ne _ _ _ _ (fun hc => hwv hc.symm)] at hsw
      cases hob : lookupS s.repo.objects k' with
      | none => rw [hob] at hsw; simp [lookupS] at hsw
      | some l =>
        rw [hob] at hsw
        exact hf k' l w sw hob (by simpa using hsw)
    · rw [if_neg h] at hv
      obtain ⟨vs, sv, hvs, hsv, hmax⟩ := lm k' v hv
      refine ⟨vs, sv, ?_, hsv, hmax⟩
      rw [hobjL, if_neg h]
      exact hvs
  · -- distinct_times
    intro k' vs hvs v sv w sw hsv hsw hvw
    rw [hobjL] at hvs
    by_cases h : k' = k
    · rw [if_pos h] at hvs
      cases hvs
      by_cases hv : vid = v
      · subst hv
        rw [lookupS_insertS_self] at hsv
        cases hsv
        rw [lookupS_insertS_ne _ _ _ _ (fun hc => hvw hc)] at hsw
        cases hob : lookupS s.repo.objects k with
        | none => rw [hob] at hsw; simp [lookupS] at hsw
        | some l =>
          rw [hob] at hsw
          have := hf k l w sw hob (by simpa using hsw)
          simp only [hmeta]
          omega
      · rw [lookupS_insertS_ne _ _ _ _ hv] at hsv
        by_cases hw : vid = w
        · subst hw
          rw [lookupS_insertS_self] at hsw
          cases hsw
          cases hob : lookupS s.repo.objects k with
          | none => rw [hob] at hsv; simp [lookupS] at hsv
          | some l =>
            rw [hob] at hsv
            have := hf k l v sv hob (by simpa using hsv)
            simp only [hmeta]
            omega
        · rw [lookupS_insertS_ne _ _ _ _ hw] at hsw
          cases hob : lookupS s.repo.objects k with
          | none => rw [hob] at hsv; simp [lookupS] at hsv
          | some l =>
            rw [hob] at hsv
            rw [hob] at hsw
            exact dt k l hob v sv w sw (by simpa using hsv) (by simpa using hsw) hvw
    · rw [if_neg h] at hvs
      exact dt k' vs hvs v sv w sw hsv hsw hvw
  · -- store_data
    intro k' vs v sv hvs hsv
    rw [hobjL] at hvs
    rw [hstoL, lastPutData_append_put]
    by_cases h : k' = k
    · rw [if_pos h] at hvs
      cases hvs
      subst h
      by_cases hv : vid = v
      · subst hv
        simp
      · rw [lookupS_insertS_ne _ _ _ _ hv] at hsv
        rw [if_neg (fun hc => hv (congrArg Prod.snd hc).symm),
          if_neg (fun hc => hv hc.2)]
        cases hob : lookupS s.repo.objects k' with
        | none => rw [hob] at hsv; simp [lookupS] at hsv
        | some l =>
          rw [hob] at hsv
          exact sd k' l v sv hob (by simpa using hsv)
    · rw [if_neg h] at hvs
      rw [if_neg (fun hc => h (congrArg Prod.fst hc)),
        if_neg (fun hc => h hc.1.symm)]
      exact sd k' vs v sv hvs hsv

theorem lookupS_latest_update (latest : List (String × String)) (k : String)
    (b : Bool) (x : Option String) (k' : String) (hk : k' ≠ k) :
    lookupS (if b = true then
        match x with
        | some v => insertS latest k v
        | none => eraseS latest k
      else latest) k' = lookupS latest k' := by
  split
  · cases x with
    | some v => exact lookupS_insertS_ne _ _ _ _ (fun hc => hk hc.symm)
    | none => exact lookupS_eraseS_ne _ _ _ (fun hc => hk hc.symm)
  · rfl

theorem c1Inv_del {tr : List Op} {s s' : SysState} {k vid : String}
    (hInv : C1Inv tr s) (h : hard_delete_version s k vid = Except.ok s') :
    C1Inv (tr ++ [Op.del k vid]) s' := by
  obtain ⟨ind, ne, le, oe, al, lm, dt, sd⟩ := hInv
  unfold hard_delete_version at h
  cases hdel : delete_version_metadata s.repo k vid with
  | error e => rw [hdel] at h; cases h
  | ok repo' =>
    rw [hdel] at h
    cases hst : lookupS s.store (k, vid) with
    | none => rw [hst] at h; cases h
    | some bytes =>
      rw [hst] at h
      cases h
      simp only [delete_version_metadata] at hdel
      cases hobj : lookupS s.repo.objects k with
      | none => simp only [hobj] at hdel; cases hdel
      | some versions =>
        simp only [hobj] at hdel
        cases hver : lookupS versions vid with
        | none => simp only [hver] at hdel; cases hdel
        | some sv0 =>
          simp only [hver] at hdel
          have hndv : NodupKeys versions := ind k versions hobj
          have hndE : NodupKeys (eraseS versions vid) := nodupKeys_eraseS _ hndv
          have hEtrans : ∀ w sw, lookupS (eraseS versions vid) w = some sw →
              lookupS versions w = some sw ∧ w ≠ vid := by
            intro w sw hw
            have hmem := lookupS_mem hw
            obtain ⟨hmemv, hne'⟩ := mem_eraseS hmem
            exact ⟨mem_lookupS hndv hmemv, by simpa using hne'⟩
          have hstoL : ∀ p, lookupS (eraseS s.store (k, vid)) p
              = if p = (k, vid) then none else lookupS s.store p := by
            intro p
            by_cases hp : p = (k, vid)
            · subst hp
              simp [lookupS_eraseS_self]
            · rw [if_neg hp]
              exact lookupS_eraseS_ne _ _ _ (fun hc => hp hc.symm)
          have hfilt : List.filter (fun p => !p.2.deleted) (eraseS versions vid)
              = eraseS versions vid := by
            apply List.filter_eq_self.mpr
            intro p hp
            obtain ⟨hmem, _⟩ := mem_eraseS hp
            have hlk : lookupS versions p.1 = some p.2 := by
              cases p
              exact mem_lookupS hndv hmem
            have := al k versions p.1 p.2 hobj hlk
            simp [this]
          by_cases hemp : (eraseS versions vid).isEmpty
          · -- the key is pruned entirely
            rw [if_pos hemp] at hdel
            cases hdel
            have hobjL : ∀ k',
                lookupS (eraseS (insertS s.repo.objects k (eraseS versions vid)) k) k'
                = if k' = k then none else lookupS s.repo.objects k' := by
              intro k'
              by_cases hk : k' = k
              · subst hk
                simp [lookupS_eraseS_self]
              · rw [if_neg hk, lookupS_eraseS_ne _ _ _ (fun hc => hk hc.symm),
                  lookupS_insertS_ne _ _ _ _ (fun hc => hk hc.symm)]
            have hlatL : ∀ k', k' ≠ k →
                lookupS (eraseS (if (lookupS s.repo.latest_versions k == some vid) = true then
                    match Option.map (fun p => p.1)
                      (maxByKeyLast (fun p => p.2.metadata.last_modified) none
                        (List.filter (fun p => !p.2.deleted) (eraseS versions vid))) with
                    | some v => insertS s.repo.latest_versions k v
                    | none => eraseS s.repo.latest_versions k
                  else s.repo.latest_versions) k) k'
                = lookupS s.repo.latest_versions k' := by
              intro k' hk
              rw [lookupS_eraseS_ne _ _ _ (fun hc => hk hc.symm)]
              exact lookupS_latest_update _ _ _ _ _ hk
            refine ⟨?_, ?_, ?_, ?_, ?_, ?_, ?_, ?_⟩
            · intro k' vs hvs
              rw [hobjL] at hvs
              by_cases hk : k' = k
              · rw [if_pos hk] at hvs; cases hvs
              · rw [if_neg hk] at hvs
                exact ind k' vs hvs
            · intro k' vs hvs
              rw [hobjL] at hvs
              by_cases hk : k' = k
              · rw [if_pos hk] at hvs; cases hvs
              · rw [if_neg hk] at hvs
                exact ne k' vs hvs
            · intro k' vs hvs
              rw [hobjL] at hvs
              by_cases hk : k' = k
              · rw [if_pos hk] at hvs; cases hvs
              · rw [if_neg hk] at hvs
                rw [hlatL k' hk]
                exact le k' vs hvs
            · intro k' v hv
              by_cases hk : k' = k
              · subst hk
                rw [lookupS_eraseS_self] at hv
                cases hv
              · rw [hlatL k' hk] at hv
                obtain ⟨vs, hvs⟩ := oe k' v hv
                refine ⟨vs, ?_⟩
                rw [hobjL, if_neg hk]
                exact hvs
            · intro k' vs v sv hvs hsv
              rw [hobjL] at hvs
              by_cases hk : k' = k
              · rw [if_pos hk] at hvs; cases hvs
              · rw [if_neg hk] at hvs
                exact al k' vs v sv hvs hsv
            · intro k' v hv
              by_cases hk : k' = k
              · subst hk
                rw [lookupS_eraseS_self] at hv
                cases hv
              · rw [hlatL k' hk] at hv
                obtain ⟨vs, sv, hvs, hsv, hmax⟩ := lm k' v hv
                refine ⟨vs, sv, ?_, hsv, hmax⟩
                rw [hobjL, if_neg hk]
                exact hvs
            · intro k' vs hvs v sv w sw hsv hsw hvw
              rw [hobjL] at hvs
              by_cases hk : k' = k
              · rw [if_pos hk] at hvs; cases hvs
              · rw [if_neg hk] at hvs
                exact dt k' vs hvs v sv w sw hsv hsw hvw
            · intro k' vs v sv hvs hsv
              rw [hobjL] at hvs
              by_cases hk : k' = k
              · rw [if_pos hk] at hvs; cases hvs
              · rw [if_neg hk] at hvs
                rw [hstoL, if_neg (fun hc => hk (congrArg Prod.fst hc)),
                  lastPutData_append_del]
                exact sd k' vs v sv hvs hsv
          · -- versions remain for the key
            rw [if_neg hemp] at hdel
            cases hdel
            have hvne : eraseS versions vid ≠ [] := by
              intro hcon
              rw [hcon] at hemp
              exact hemp rfl
            have hobjL : ∀ k',
                lookupS (insertS s.repo.objects k (eraseS versions vid)) k'
                = if k' = k then some (eraseS versions vid)
                  else lookupS s.repo.objects k' := by
              intro k'
              by_cases hk : k' = k
              · subst hk
                simp [lookupS_insertS_self]
              · rw [if_neg hk]
                exact lookupS_insertS_ne _ _ _ _ (fun hc => hk hc.symm)
            have hlatNe : ∀ k', k' ≠ k →
                lookupS (if (lookupS s.repo.latest_versions k == some vid) = true then
                    match Option.map (fun p => p.1)
                      (maxByKeyLast (fun p => p.2.metadata.last_modified) none
                        (List.filter (fun p => !p.2.deleted) (eraseS versions vid))) with
                    | some v => insertS s.repo.latest_versions k v
                    | none => eraseS s.repo.latest_versions k
                  else s.repo.latest_versions) k'
                = lookupS s.repo.latest_versions k' := by
              intro k' hk
              exact lookupS_latest_update _ _ _ _ _ hk
            -- the promoted maximum, when the deleted version was the latest
            obtain ⟨xm, hxm, hxmem, hxmax⟩ :=
              maxByKeyLast_of_ne_nil (fun p => p.2.metadata.last_modified)
                (eraseS versions vid) hvne
            have hxlk : lookupS (eraseS versions vid) xm.1 = some xm.2 := by
              cases xm
              exact mem_lookupS hndE hxmem
            have hxstrict : ∀ w sw, lookupS (eraseS versions vid) w = some sw →
                w ≠ xm.1 → sw.metadata.last_modified < xm.2.metadata.last_modified := by
              intro w sw hw hwx
              obtain ⟨hwv, hwvid⟩ := hEtrans w sw hw
              obtain ⟨hxv, _⟩ := hEtrans xm.1 xm.2 hxlk
              have hne' := dt k versions hobj w sw xm.1 xm.2 hwv hxv hwx
              have hle := hxmax (w, sw) (lookupS_mem hw)
              exact lt_of_le_of_ne hle hne'
            have hlatK : lookupS (if (lookupS s.repo.latest_versions k == some vid) = true then
                    match Option.map (fun p => p.1)
                      (maxByKeyLast (fun p => p.2.metadata.last_modified) none
                        (List.filter (fun p => !p.2.deleted) (eraseS versions vid))) with
                    | some v => insertS s.repo.latest_versions k v
                    | none => eraseS s.repo.latest_versions k
                  else s.repo.latest_versions) k
                = if (lookupS s.repo.latest_versions k == some vid) = true
                  then some xm.1 else lookupS s.repo.latest_versions k := by
              split
              · rw [hfilt, hxm]
                simp [lookupS_insertS_self]
              · rfl
            refine ⟨?_, ?_, ?_, ?_, ?_, ?_, ?_, ?_⟩
            · intro k' vs hvs
              rw [hobjL] at hvs
              by_cases hk : k' = k
              · rw [if_pos hk] at hvs
                cases hvs
                exact hndE
              · rw [if_neg hk] at hvs
                exact ind k' vs hvs
            · intro k' vs hvs
              rw [hobjL] at hvs
              by_cases hk : k' = k
              · rw [if_pos hk] at hvs
                cases hvs
                exact hvne
              · rw [if_neg hk] at hvs
                exact ne k' vs hvs
            · intro k' vs hvs
              rw [hobjL] at hvs
              by_cases hk : k' = k
              · subst hk
                rw [hlatK]
                split
                · simp
                · exact le k' versions hobj
              · rw [if_neg hk] at hvs
                rw [hlatNe k' hk]
                exact le k' vs hvs
            · intro k' v hv
              by_cases hk : k' = k
              · subst hk
                exact ⟨eraseS versions vid, by rw [hobjL, if_pos rfl]⟩
              · rw [hlatNe k' hk] at hv
                obtain ⟨vs, hvs⟩ := oe k' v hv
                refine ⟨vs, ?_⟩
                rw [hobjL, if_neg hk]
                exact hvs
            · intro k' vs v sv hvs hsv
              rw [hobjL] at hvs
              by_cases hk : k' = k
              · rw [if_pos hk] at hvs
                cases hvs
                obtain ⟨hsv', _⟩ := hEtrans v sv hsv
                exact al k versions v sv hobj hsv'
              · rw [if_neg hk] at hvs
                exact al k' vs v sv hvs hsv
            · intro k' v hv
              by_cases hk : k' = k
              · subst hk
                rw [hlatK] at hv
                by_cases hsu : (lookupS s.repo.latest_versions k' == some vid) = true
                · rw [if_pos hsu] at hv
                  cases hv
                  refine ⟨eraseS versions vid, xm.2, by rw [hobjL, if_pos rfl], hxlk, ?_⟩
                  intro w sw hw hwx
                  exact hxstrict w sw hw hwx
                · rw [if_neg hsu] at hv
                  obtain ⟨vs, sv, hvs, hsv, hmax⟩ := lm k' v hv
                  rw [hobj] at hvs
                  cases hvs
                  have hvvid : v ≠ vid := by
                    intro hcon
                    subst hcon
                    rw [hv] at hsu
                    simp at hsu
                  refine ⟨eraseS versions vid, sv, by rw [hobjL, if_pos rfl], ?_, ?_⟩
                  · rw [lookupS_eraseS_ne _ _ _ (fun hc => hvvid hc.symm)]
                    exact hsv
                  · intro w sw hw hwv
                    obtain ⟨hwv', _⟩ := hEtrans w sw hw
                    exact hmax w sw hwv' hwv
              · rw [hlatNe k' hk] at hv
                obtain ⟨vs, sv, hvs, hsv, hmax⟩ := lm k' v hv
                refine ⟨vs, sv, ?_, hsv, hmax⟩
                rw [hobjL, if_neg hk]
                exact hvs
            · intro k' vs hvs v sv w sw hsv hsw hvw
              rw [hobjL] at hvs
              by_cases hk : k' = k
              · rw [if_pos hk] at hvs
                cases hvs
                obtain ⟨hsv', _⟩ := hEtrans v sv hsv
                obtain ⟨hsw', _⟩ := hEtrans w sw hsw
                exact dt k versions hobj v sv w sw hsv' hsw' hvw
              · rw [if_neg hk] at hvs
                exact dt k' vs hvs v sv w sw hsv hsw hvw
            · intro k' vs v sv hvs hsv
              rw [hobjL] at hvs
              rw [hstoL, lastPutData_append_del]
              by_cases hk : k' = k
              · rw [if_pos hk] at hvs
                cases hvs
                subst hk
                obtain ⟨hsv', hvvid⟩ := hEtrans v sv hsv
                rw [if_neg (fun hc => hvvid (congrArg Prod.snd hc))]
                exact sd k' versions v sv hobj hsv'
              · rw [if_neg hk] at hvs
                rw [if_neg (fun hc => hk (congrArg Prod.fst hc))]
                exact sd k' vs v sv hvs hsv

theorem reach_inv {tr : List Op} {s : SysState} (h : Reach tr s) : C1Inv tr s := by
  induction h with
  | init => exact c1Inv_init
  | put hr hf ih => exact c1Inv_put _ _ _ _ _ _ ih hf
  | del hr hd ih => exact c1Inv_del ih hd

/-- With pairwise-distinct keys, the entries whose key equals a present key
are counted exactly once. -/
theorem countP_beq_key_eq_one {α : Type} (l : List (String × α)) (hnd : NodupKeys l)
    (v : String) (sv : α) (h : lookupS l v = some sv) :
    l.countP (fun p => v == p.1) = 1 := by
  induction l with
  | nil => simp [lookupS] at h
  | cons a t ih =>
    obtain ⟨a1, a2⟩ := a
    obtain ⟨h1, h2⟩ := List.pairwise_cons.mp hnd
    rw [List.countP_cons]
    by_cases ha : a1 = v
    · subst ha
      have h0 : t.countP (fun p => a1 == p.1) = 0 := by
        rw [List.countP_eq_zero]
        intro p hp
        simp [h1 p hp]
      simp [h0]
    · have ht : lookupS t v = some sv := by
        simpa [lookupS, ha] using h
      have hne' : (v == a1) = false := by
        simp
        exact fun hc => ha hc.symm
      simp [hne', ih h2 ht]

/-- C1 counterexample: the listing order `[v1, v2]` is not a program
guarantee.  At the concrete state reached by `put(k,[1,2])→v1;
put(k,[3,4])→v2`, the reversed entry sequence is an admissible `HashMap`
iteration (a permutation of the stored entries), and under it
`list_versions(k)` is `[v2, v1]`, not the claimed `[v1, v2]`. -/
theorem c1_counterexample :
    IterAdmissible demo2.repo "data/k"
      (((lookupS demo2.repo.objects "data/k").getD []).reverse)
    ∧ list_object_versions demo2.repo "data/k"
        (((lookupS demo2.repo.objects "data/k").getD []).reverse)
      = [⟨"v2", 9, 2, some (md5_compute [3, 4]), true, false⟩,
         ⟨"v1", 5, 2, some (md5_compute [1, 2]), false, false⟩]
    ∧ list_object_versions demo2.repo "data/k"
        (((lookupS demo2.repo.objects "data/k").getD []).reverse)
      ≠ [⟨"v1", 5, 2, some (md5_compute [1, 2]), false, false⟩,
         ⟨"v2", 9, 2, some (md5_compute [3, 4]), true, false⟩] := by
  refine ⟨by decide, by decide, by decide⟩

/-- The record listing derived from a version map with distinct keys marks
exactly one record latest when the latest pointer designates a present
version. -/
theorem countP_latest_map (latest : List (String × String)) (k v : String)
    (hv : lookupS latest k = some v) (vs : List (String × StoredVersion))
    (hnd : NodupKeys vs) (sv : StoredVersion) (hsv : lookupS vs v = some sv) :
    (vs.map (fun p =>
      (⟨p.1, p.2.metadata.last_modified, p.2.metadata.content_length,
        p.2.metadata.etag, lookupS latest k == some p.1, p.2.deleted⟩ :
        ObjectVersionInfo))).countP (fun info => info.is_latest) = 1 := by
  rw [List.countP_map]
  have hq : ((fun (info : ObjectVersionInfo) => info.is_latest) ∘ (fun (p : String × StoredVersion) =>
      (⟨p.1, p.2.metadata.last_modified, p.2.metadata.content_length,
        p.2.metadata.etag, lookupS latest k == some p.1, p.2.deleted⟩ :
        ObjectVersionInfo)))
      = fun (p : String × StoredVersion) => (lookupS latest k == some p.1) := rfl
  rw [hq]
  simp only [hv]
  exact countP_beq_key_eq_one vs hnd v sv hsv

/-- C1 (amended): after any sequence of successful `put`
(`create_versioned_object`) and spec-4.2 `delete_version`
(`hard_delete_version`) operations under a monotone clock, every key with
any versions has a designated latest version; the designated latest is
stored, non-deleted, and has the strictly greatest creation time among the
key's versions; a version-less `get_object` succeeds, marks the result
latest, and returns exactly the bytes written by the last `put` of that
version; and under every admissible `HashMap` iteration order,
`list_versions` returns a permutation of the stored version records in
which exactly one record is marked latest — the designated, non-deleted
one — though not necessarily in insertion order. -/
theorem c1_latest_version_invariant (tr : List Op) (s : SysState)
    (h : Reach tr s) (k : String) :
    (∀ vs, lookupS s.repo.objects k = some vs →
      vs ≠ [] ∧ (lookupS s.repo.latest_versions k).isSome = true)
    ∧ (∀ v, lookupS s.repo.latest_versions k = some v →
        ∃ vs sv, lookupS s.repo.objects k = some vs ∧ lookupS vs v = some sv
          ∧ sv.deleted = false
          ∧ (∀ w sw, lookupS vs w = some sw → w ≠ v →
              sw.metadata.last_modified < sv.metadata.last_modified)
          ∧ ∃ d, lastPutData tr k v = some d
              ∧ get_object s k none
                = Except.ok ⟨k, v, d, sv.metadata, true, false⟩)
    ∧ (∀ iter, IterAdmissible s.repo k iter →
        (list_object_versions s.repo k iter).Perm
          (list_object_versions s.repo k ((lookupS s.repo.objects k).getD []))
        ∧ ∀ v, lookupS s.repo.latest_versions k = some v →
            (list_object_versions s.repo k iter).countP (fun info => info.is_latest) = 1
            ∧ ∀ info ∈ list_object_versions s.repo k iter,
                info.is_latest = true → info.version_id = v ∧ info.deleted = false) := by
  have hInv := reach_inv h
  refine ⟨?_, ?_, ?_⟩
  · intro vs hvs
    exact ⟨hInv.nonempty k vs hvs, hInv.latest_exists k vs hvs⟩
  · intro v hv
    obtain ⟨vs, sv, hvs, hsv, hmax⟩ := hInv.latest_max k v hv
    have hlive := hInv.all_live k vs v sv hvs hsv
    obtain ⟨hstq, hsome⟩ := hInv.store_data k vs v sv hvs hsv
    obtain ⟨d, hd⟩ := Option.isSome_iff_exists.mp hsome
    refine ⟨vs, sv, hvs, hsv, hlive, hmax, d, hd, ?_⟩
    rw [hd] at hstq
    unfold get_object get_latest_version_id get_object_metadata
    simp [hv, hvs, hsv, hlive, hstq]
  · intro iter hiter
    have hperm : iter.Perm ((lookupS s.repo.objects k).getD []) := hiter
    refine ⟨hperm.map _, ?_⟩
    intro v hv
    obtain ⟨vs, sv, hvs, hsv, _⟩ := hInv.latest_max k v hv
    have hndv : NodupKeys vs := hInv.inner_nodup k vs hvs
    have hgetd : (lookupS s.repo.objects k).getD [] = vs := by rw [hvs]; rfl
    rw [hgetd] at hperm
    constructor
    · have hcp : (list_object_versions s.repo k iter).countP (fun info => info.is_latest)
          = (list_object_versions s.repo k vs).countP (fun info => info.is_latest) :=
        (hperm.map _).countP_eq _
      rw [hcp]
      exact countP_latest_map s.repo.latest_versions k v hv vs hndv sv hsv
    · intro info hinfo hflag
      obtain ⟨p, hpiter, hpeq⟩ := List.mem_map.mp hinfo
      have hpmem : p ∈ vs := hperm.mem_iff.mp hpiter
      have hplk : lookupS vs p.1 = some p.2 := by
        cases p
        exact mem_lookupS hndv hpmem
      have hvid : info.version_id = p.1 := by rw [← hpeq]
      have hlat : lookupS s.repo.latest_versions k = some p.1 := by
        rw [← hpeq] at hflag
        simpa using hflag
      constructor
      · rw [hvid]
        rw [hv] at hlat
        exact (Option.some_inj.mp hlat).symm
      · rw [← hpeq]
        simpa using hInv.all_live k vs p.1 p.2 hvs hplk

/-- C1 witness: `put(k,[1,2])→v1; put(k,[3,4])→v2` reaches `demo2`; the
invariant theorem yields the designated latest and the exactly-one-latest
listing count, and concretely `get` returns `[3,4]`, the latest pointer is
`v2`, and the insertion-order iteration (one admissible order) lists
`[v1, v2]` with only `v2` flagged. -/
theorem c1_witness :
    (lookupS demo2.repo.latest_versions "data/k").isSome = true
    ∧ get_object demo2 "data/k" none
        = Except.ok ⟨"data/k", "v2", [3, 4],
            ⟨none, 2, some (md5_compute [3, 4]), 9, []⟩, true, false⟩
    ∧ lookupS demo2.repo.latest_versions "data/k" = some "v2"
    ∧ (list_object_versions demo2.repo "data/k"
        ((lookupS demo2.repo.objects "data/k").getD [])).countP
          (fun info => info.is_latest) = 1
    ∧ list_object_versions demo2.repo "data/k"
        ((lookupS demo2.repo.objects "data/k").getD [])
      = [⟨"v1", 5, 2, some (md5_compute [1, 2]), false, false⟩,
         ⟨"v2", 9, 2, some (md5_compute [3, 4]), true, false⟩] := by
  have h0 : Reach [] ({} : SysState) := Reach.init
  have h1 : Reach [Op.put "data/k" "v1" [1, 2] none [] 5] demo1 :=
    Reach.put h0 (freshTime_of_below {} 5 (by decide))
  have h2 : Reach [Op.put "data/k" "v1" [1, 2] none [] 5,
      Op.put "data/k" "v2" [3, 4] none [] 9] demo2 :=
    Reach.put h1 (freshTime_of_below demo1 9 (by decide))
  have hmain := c1_latest_version_invariant _ demo2 h2 "data/k"
  have hone := (hmain.2.2 ((lookupS demo2.repo.objects "data/k").getD [])
    (by decide)).2 "v2" (by decide)
  exact ⟨(hmain.1 ((lookupS demo2.repo.objects "data/k").getD []) (by decide)).2,
    by decide, by decide, hone.1, by decide⟩

end ObjectStoreServer
